import Mathlib

set_option maxRecDepth 100000

/-!
Verification of the OSRM guidance turn classifier (`turn_handler.cpp` together
with the `ConnectedRoad` / `Intersection` helpers of `intersection.cpp`).

The embedding models angles as rationals, and the external oracles
(road classes, name table, basic-turn utilities) as fields of a context
structure `Ctx`; the numeric constants of `constants.hpp` (not part of the
sources) are context fields as well, constrained by hypotheses where a proof
needs them.
-/

namespace Osrm

/-- Modelled from the spec: the direction-modifier enumeration
{UTurn, SharpRight, Right, SlightRight, Straight, SlightLeft, Left, SharpLeft}. -/
inductive DirectionModifier where
  | UTurn | SharpRight | Right | SlightRight | Straight | SlightLeft | Left | SharpLeft
deriving DecidableEq

/-- Modelled from the spec: the turn-type enumeration; `Invalid` is the
default (unassigned) type of a fresh instruction. -/
inductive TurnType where
  | Invalid | NewName | Continue | Turn | Merge | OnRamp | OffRamp | Fork | EndOfRoad | Notification
deriving DecidableEq

/-- A turn instruction: pair of turn type and direction modifier. -/
structure TurnInstruction where
  type : TurnType
  direction_modifier : DirectionModifier
deriving DecidableEq

/-- Modelled from the spec: the default (unassigned) instruction carried by a
road before classification. -/
def defaultInstruction : TurnInstruction :=
  ⟨TurnType.Invalid, DirectionModifier.UTurn⟩

/-- One outgoing edge of an intersection (`ConnectedRoad` of the source). -/
structure ConnectedRoad where
  eid : Nat
  angle : ℚ
  bearing : ℚ
  entry_allowed : Bool
  instruction : TurnInstruction
deriving DecidableEq

/-- The angle-ordered list of connected roads at an intersection. -/
abbrev Intersection := List ConnectedRoad

def defaultRoad : ConnectedRoad :=
  ⟨0, 0, 0, false, defaultInstruction⟩

/-- Road access `intersection[k]`; out-of-range reads give the default road
(never taken at the C++ call sites, which index in bounds). -/
def roadAt (i : Intersection) (k : Nat) : ConnectedRoad :=
  (i[k]?).getD defaultRoad

/-- The instruction of road `k`, `none` when out of range. -/
def instrAt (i : Intersection) (k : Nat) : Option TurnInstruction :=
  (i[k]?).map ConnectedRoad.instruction

/-- Write the instruction of road `k` (in-place mutation in the source). -/
def setInstrAt (i : Intersection) (k : Nat) (t : TurnInstruction) : Intersection :=
  i.set k { roadAt i k with instruction := t }

/-!
The rational operations of Batteries are irreducible, so the embedding works
through the following evaluation-friendly wrappers, each proved equal to the
standard operation.
-/

/-- Absolute value on the rationals, written so that it evaluates by the
kernel. -/
def qabs (a : ℚ) : ℚ := if a < 0 then -a else a

/-- Minimum on the rationals, written so that it evaluates by the kernel. -/
def qmin (a b : ℚ) : ℚ := if a ≤ b then a else b

/-- Subtraction on the rationals, written so that it evaluates by the
kernel. -/
def qsub (a b : ℚ) : ℚ := mkRat (a.num * b.den - b.num * a.den) (a.den * b.den)

/-- Multiplication on the rationals, written so that it evaluates by the
kernel. -/
def qmul (a b : ℚ) : ℚ := mkRat (a.num * b.num) (a.den * b.den)

/-- Division on the rationals (zero when the divisor is zero), written so
that it evaluates by the kernel. -/
def qdiv (a b : ℚ) : ℚ := Rat.divInt (a.num * b.den) (a.den * b.num)

/-- Modelled from the spec: `angularDeviation(a, b)` of `util/bearing.hpp`
(not among the sources) returns the smaller of `|a - b|` and `360 - |a - b|`. -/
def angularDeviation (a b : ℚ) : ℚ :=
  qmin (qabs (qsub a b)) (qsub 360 (qabs (qsub a b)))

/-- The view of a road an external oracle may consult: everything except the
instruction field being produced (edge id, geometry, entry flag). -/
structure RoadFrame where
  eid : Nat
  angle : ℚ
  entry_allowed : Bool
deriving DecidableEq

def frameOf (r : ConnectedRoad) : RoadFrame :=
  ⟨r.eid, r.angle, r.entry_allowed⟩

def framesOf (i : Intersection) : List RoadFrame :=
  i.map frameOf

/-- Modelled from the spec: a road classification supports a priority rank and
a link-class flag. -/
structure RoadClass where
  priority : Nat
  isLink : Bool
deriving DecidableEq

/-- Modelled from the spec: the external context of the classifier — the
numeric constants of `constants.hpp` and the oracles of §6 of the design
(node-based graph edge data, name tables, basic turn utilities). -/
structure Ctx where
  /-- std numeric epsilon used by the straightness and mirror guards. -/
  eps : ℚ
  /-- NARROW_TURN_ANGLE. -/
  narrow : ℚ
  /-- GROUP_ANGLE. -/
  groupAngle : ℚ
  /-- FUZZY_ANGLE_DIFFERENCE. -/
  fuzzy : ℚ
  /-- MAXIMAL_ALLOWED_NO_TURN_DEVIATION. -/
  maxNoTurn : ℚ
  /-- getTurnDirection of the toolkit: angle to coarse direction modifier. -/
  getTurnDirection : ℚ → DirectionModifier
  /-- road_classification of GetEdgeData(eid). -/
  roadClass : Nat → RoadClass
  /-- name_id of GetEdgeData(eid); 0 plays the role of EMPTY_NAMEID. -/
  nameOf : Nat → Nat
  /-- requiresNameAnnounced over the name and suffix tables. -/
  requiresNameAnnounced : Nat → Nat → Bool
  /-- obviousByRoadClass(via, road, other). -/
  obviousByRoadClass : RoadClass → RoadClass → RoadClass → Bool
  /-- canBeSeenAsFork on two classifications. -/
  canBeSeenAsFork : RoadClass → RoadClass → Bool
  /-- findBasicTurnType(via_edge, road). -/
  findBasicTurnType : Nat → RoadFrame → TurnType
  /-- getInstructionForObvious(intersection size, via_edge, is_through_street, road). -/
  getInstructionForObvious : Nat → Nat → Bool → RoadFrame → TurnInstruction
  /-- findObviousTurn(via_edge, intersection): index of the obvious road or 0. -/
  findObviousTurn : Nat → List RoadFrame → Nat
  /-- isThroughStreet(index, intersection). -/
  isThroughStreet : Nat → List RoadFrame → Bool
  /-- assignFork(via, left, right), as the pair of produced instructions. -/
  forkInstructions2 : Nat → RoadFrame → RoadFrame → TurnInstruction × TurnInstruction
  /-- assignFork(via, left, middle, right), as the produced instructions. -/
  forkInstructions3 : Nat → RoadFrame → RoadFrame → RoadFrame →
      TurnInstruction × TurnInstruction × TurnInstruction

/-- The mirrored_modifiers table of `ConnectedRoad::mirror`. -/
def mirroredModifier : DirectionModifier → DirectionModifier
  | .UTurn => .UTurn
  | .SharpRight => .SharpLeft
  | .Right => .Left
  | .SlightRight => .SlightLeft
  | .Straight => .Straight
  | .SlightLeft => .SlightRight
  | .Left => .Right
  | .SharpLeft => .SharpRight

/-- ConnectedRoad::mirror of `intersection.cpp`: when the angle is not
(essentially) zero, replace the angle by `360 - angle` and the direction
modifier through the mirror table. -/
def ConnectedRoad.mirror (eps : ℚ) (r : ConnectedRoad) : ConnectedRoad :=
  if angularDeviation r.angle 0 > eps then
    { r with
      angle := qsub 360 r.angle,
      instruction := ⟨r.instruction.type, mirroredModifier r.instruction.direction_modifier⟩ }
  else r

/-- The switch_left_and_right helper of `assignLeftTurns`: mirror every road
and reverse the roads at indices `[1, end)`. -/
def switchLeftAndRight (ctx : Ctx) (i : Intersection) : Intersection :=
  match i.map (ConnectedRoad.mirror ctx.eps) with
  | [] => []
  | h :: t => h :: t.reverse

/-- isOutermostForkCandidate of the anonymous namespace: `road1` is the
outermost road of a fork when `road2` is not itself a fork candidate. -/
def isOutermostForkCandidate (ctx : Ctx) (road1 road2 : ConnectedRoad) : Bool :=
  let angle_between_next_road_and_straight := angularDeviation road2.angle 180
  let angle_between_prev_road_and_next := angularDeviation road1.angle road2.angle
  let angle_between_prev_road_and_straight := angularDeviation road1.angle 180
  if angle_between_next_road_and_straight > ctx.narrow then
    if angle_between_prev_road_and_next > ctx.narrow ∨
        angle_between_prev_road_and_straight > ctx.groupAngle then
      true
    else false
  else false

/-- isEndOfRoad of the anonymous namespace. -/
def isEndOfRoad (ctx : Ctx) (_uturn possible_right_turn possible_left_turn : ConnectedRoad) :
    Bool :=
  decide (angularDeviation possible_right_turn.angle 90 < ctx.narrow) &&
  decide (angularDeviation possible_left_turn.angle 270 < ctx.narrow) &&
  decide (angularDeviation possible_right_turn.angle possible_left_turn.angle >
    qmul 2 ctx.narrow)

/-- Loop body of findClosestToStraight: visit the next `fuel` indices starting
at `k`, keeping the entry-allowed road of smallest deviation from 180
(strict improvement only). -/
def closestGo (i : Intersection) : Nat → Nat → Nat × ℚ → Nat × ℚ
  | 0, _, best => best
  | fuel + 1, k, best =>
    let dev := angularDeviation (roadAt i k).angle 180
    closestGo i fuel (k + 1)
      (if (roadAt i k).entry_allowed = true ∧ dev < best.2 then (k, dev) else best)

/-- findClosestToStraight: index of and deviation of the entry-allowed road
closest to going straight over indices `[1, size)`, starting from `(0, 180)`. -/
def findClosestToStraight (i : Intersection) : Nat × ℚ :=
  closestGo i (i.length - 1) 1 (0, 180)

/-- Forward instance of findOutermostForkCandidate: std::adjacent_find over
the `fuel` adjacent pairs `(k, k+1), ...`; if no pair satisfies the
predicate, the last road (index `size - 1`, the decremented end iterator)
is returned. -/
def upScanGo (ctx : Ctx) (i : Intersection) : Nat → Nat → Nat
  | 0, _ => i.length - 1
  | fuel + 1, k =>
    if isOutermostForkCandidate ctx (roadAt i k) (roadAt i (k + 1)) then k
    else upScanGo ctx i fuel (k + 1)

/-- Scan from index `k` toward larger indices; the pairs examined are exactly
those with both components below `size`, as in the iterator range `[k, end)`. -/
def upScan (ctx : Ctx) (i : Intersection) (k : Nat) : Nat :=
  upScanGo ctx i (i.length - 1 - k) k

/-- Reverse instance of findOutermostForkCandidate: std::adjacent_find over
the reversed range from index `k` down to index 0; if no pair satisfies the
predicate the scan falls back to index 0 (the decremented reverse end). -/
def downScan (ctx : Ctx) (i : Intersection) : Nat → Nat
  | 0 => 0
  | k + 1 =>
    if isOutermostForkCandidate ctx (roadAt i (k + 1)) (roadAt i k) then k + 1
    else downScan ctx i k

/-- The Fork descriptor: indices of the rightmost and leftmost fork roads. -/
structure Fork where
  right : Nat
  left : Nat
deriving DecidableEq

/-- Fork size as stored by the Fork constructor: `left - right + 1`. -/
def Fork.size (f : Fork) : Nat := f.left - f.right + 1

/-- TurnHandler::findLeftAndRightmostForkCandidates. -/
def findLeftAndRightmostForkCandidates (ctx : Ctx) (i : Intersection) : Option Fork :=
  if 3 ≤ i.length then
    let straightest := findClosestToStraight i
    if straightest.2 ≤ ctx.narrow then
      let right := downScan ctx i straightest.1
      let left := upScan ctx i straightest.1
      if right < left ∧ left - right + 1 ≤ 3 then some ⟨right, left⟩ else none
    else none
  else none

/-- Index range `[a, b]` used by the all_of scans over a fork. -/
def idxRange (a b : Nat) : List Nat := List.range' a (b + 1 - a)

/-- Intersection::hasValidEntries of `intersection.cpp`: all roads in the
inclusive index range allow entry. -/
def hasValidEntries (i : Intersection) (first last : Nat) : Bool :=
  (idxRange first last).all fun k => (roadAt i k).entry_allowed

/-- TurnHandler::isObviousOfTwo. -/
def isObviousOfTwo (ctx : Ctx) (via_edge : Nat) (road other : ConnectedRoad) : Bool :=
  let via_classification := ctx.roadClass via_edge
  let road_classification := ctx.roadClass road.eid
  let other_classification := ctx.roadClass other.eid
  if ctx.obviousByRoadClass via_classification road_classification other_classification then
    true
  else if ctx.obviousByRoadClass via_classification other_classification road_classification then
    false
  else
    let turn_is_perfectly_straight :=
      decide (angularDeviation road.angle 180 < ctx.eps)
    let same_name := !(ctx.requiresNameAnnounced (ctx.nameOf via_edge) (ctx.nameOf road.eid))
    if turn_is_perfectly_straight && (ctx.nameOf via_edge != 0) && same_name then
      true
    else
      decide (qdiv (angularDeviation other.angle 180) (angularDeviation road.angle 180) >
        mkRat 7 5) &&
      decide (angularDeviation (angularDeviation other.angle 180)
        (angularDeviation road.angle 180) > ctx.fuzzy)

/-- TurnHandler::hasObvious: some adjacent pair inside the fork range has an
obvious winner. -/
def hasObvious (ctx : Ctx) (via_edge : Nat) (i : Intersection) (f : Fork) : Bool :=
  (List.range' f.right (f.left - f.right)).any fun k =>
    isObviousOfTwo ctx via_edge (roadAt i k) (roadAt i (k + 1)) ||
    isObviousOfTwo ctx via_edge (roadAt i (k + 1)) (roadAt i k)

/-- TurnHandler::isCompatibleByRoadClass. -/
def isCompatibleByRoadClass (ctx : Ctx) (i : Intersection) (f : Fork) : Bool :=
  let via_class := ctx.roadClass (roadAt i 0).eid
  let is_right_link_class := (ctx.roadClass (roadAt i f.right).eid).isLink
  if !((idxRange (f.right + 1) f.left).all fun k =>
      is_right_link_class == (ctx.roadClass (roadAt i k).eid).isLink) then
    false
  else
    (idxRange f.right f.left).all fun b =>
      (idxRange f.right f.left).all fun c =>
        !(ctx.obviousByRoadClass via_class
            (ctx.roadClass (roadAt i b).eid) (ctx.roadClass (roadAt i c).eid)) ||
        (roadAt i c).eid == (roadAt i b).eid

/-- TurnHandler::findFork: candidates from the geometry, validated by
separation, absence of an obvious winner, class compatibility and entry. -/
def findFork (ctx : Ctx) (via_edge : Nat) (i : Intersection) : Option Fork :=
  match findLeftAndRightmostForkCandidates ctx i with
  | none => none
  | some f =>
    let nextIdx := if f.left + 1 = i.length then 0 else f.left + 1
    let separated_at_left_side :=
      angularDeviation (roadAt i f.left).angle (roadAt i nextIdx).angle ≥ ctx.groupAngle
    let separated_at_right_side :=
      angularDeviation (roadAt i f.right).angle (roadAt i (f.right - 1)).angle ≥ ctx.groupAngle
    if separated_at_left_side ∧ separated_at_right_side ∧
        hasObvious ctx via_edge i f = false ∧
        isCompatibleByRoadClass ctx i f = true ∧
        hasValidEntries i f.right f.left = true then
      some f
    else none

/-- Steps 3 through 9 of handleDistinctConflict: the if chain of the source
after the straight/slight block (source lines 729-801), which the source
always executes on the current pair of roads. -/
def conflictChain (ctx : Ctx) (via_edge : Nat) (l r : ConnectedRoad) :
    ConnectedRoad × ConnectedRoad :=
  let left_type := ctx.findBasicTurnType via_edge (frameOf l)
  let right_type := ctx.findBasicTurnType via_edge (frameOf r)
  if angularDeviation l.angle 90 < ctx.maxNoTurn then
    ({ l with instruction := ⟨left_type, DirectionModifier.Right⟩ },
     { r with instruction := ⟨right_type, DirectionModifier.SharpRight⟩ })
  else if angularDeviation r.angle 90 < ctx.maxNoTurn then
    ({ l with instruction := ⟨left_type, DirectionModifier.SlightRight⟩ },
     { r with instruction := ⟨right_type, DirectionModifier.Right⟩ })
  else if angularDeviation l.angle 270 < ctx.maxNoTurn then
    ({ l with instruction := ⟨left_type, DirectionModifier.Left⟩ },
     { r with instruction := ⟨right_type, DirectionModifier.SlightLeft⟩ })
  else if angularDeviation r.angle 270 < ctx.maxNoTurn then
    ({ l with instruction := ⟨left_type, DirectionModifier.SharpLeft⟩ },
     { r with instruction := ⟨right_type, DirectionModifier.Left⟩ })
  else if ctx.getTurnDirection l.angle = DirectionModifier.SharpLeft then
    ({ l with instruction := ⟨left_type, DirectionModifier.SharpLeft⟩ },
     { r with instruction := ⟨right_type, DirectionModifier.Left⟩ })
  else if ctx.getTurnDirection r.angle = DirectionModifier.SharpRight then
    ({ l with instruction := ⟨left_type, DirectionModifier.Right⟩ },
     { r with instruction := ⟨right_type, DirectionModifier.SharpRight⟩ })
  else if ctx.getTurnDirection l.angle = DirectionModifier.Right then
    if angularDeviation l.angle 85 ≥ angularDeviation r.angle 85 then
      ({ l with instruction := ⟨left_type, DirectionModifier.Right⟩ },
       { r with instruction := ⟨right_type, DirectionModifier.SharpRight⟩ })
    else
      ({ l with instruction := ⟨left_type, DirectionModifier.SlightRight⟩ },
       { r with instruction := ⟨right_type, DirectionModifier.Right⟩ })
  else
    if angularDeviation l.angle 265 ≥ angularDeviation r.angle 265 then
      ({ l with instruction := ⟨left_type, DirectionModifier.SharpLeft⟩ },
       { r with instruction := ⟨right_type, DirectionModifier.Left⟩ })
    else
      ({ l with instruction := ⟨left_type, DirectionModifier.Left⟩ },
       { r with instruction := ⟨right_type, DirectionModifier.SlightLeft⟩ })

/-- The straight/slight block of handleDistinctConflict (source lines
700-728): it assigns instructions but does not return, so the chain above
still runs on its result. -/
def conflictStep2 (ctx : Ctx) (via_edge : Nat) (left right : ConnectedRoad) :
    ConnectedRoad × ConnectedRoad :=
  if ctx.getTurnDirection left.angle = DirectionModifier.Straight ∨
      ctx.getTurnDirection left.angle = DirectionModifier.SlightLeft ∨
      ctx.getTurnDirection right.angle = DirectionModifier.SlightRight then
    let left_classification := ctx.roadClass left.eid
    let right_classification := ctx.roadClass right.eid
    if ctx.canBeSeenAsFork left_classification right_classification then
      let fi := ctx.forkInstructions2 via_edge (frameOf left) (frameOf right)
      ({ left with instruction := fi.1 }, { right with instruction := fi.2 })
    else if left_classification.priority > right_classification.priority then
      ({ left with instruction :=
          ⟨ctx.findBasicTurnType via_edge (frameOf left), DirectionModifier.SlightLeft⟩ },
       { right with instruction :=
          ctx.getInstructionForObvious 4 via_edge false (frameOf right) })
    else
      ({ left with instruction :=
          ctx.getInstructionForObvious 4 via_edge false (frameOf left) },
       { right with instruction :=
          ⟨ctx.findBasicTurnType via_edge (frameOf right), DirectionModifier.SlightRight⟩ })
  else (left, right)

/-- TurnHandler::handleDistinctConflict, as the pair of updated roads
(the source mutates `left` and `right` through references). -/
def handleDistinctConflict (ctx : Ctx) (via_edge : Nat) (left right : ConnectedRoad) :
    ConnectedRoad × ConnectedRoad :=
  if (left.entry_allowed = false ∨ right.entry_allowed = false) ∨ left.angle = right.angle then
    (if left.entry_allowed then
        { left with instruction :=
            ⟨ctx.findBasicTurnType via_edge (frameOf left), ctx.getTurnDirection left.angle⟩ }
      else left,
     if right.entry_allowed then
        { right with instruction :=
            ⟨ctx.findBasicTurnType via_edge (frameOf right), ctx.getTurnDirection right.angle⟩ }
      else right)
  else
    let p := conflictStep2 ctx via_edge left right
    conflictChain ctx via_edge p.1 p.2

/-- Call site `handleDistinctConflict(via, intersection[a], intersection[b])`:
the two referenced roads are updated in place. -/
def applyConflict (ctx : Ctx) (via_edge : Nat) (i : Intersection) (a b : Nat) : Intersection :=
  let p := handleDistinctConflict ctx via_edge (roadAt i a) (roadAt i b)
  setInstrAt (setInstrAt i a p.1.instruction) b p.2.instruction

/-- Modelled from the spec: `assignTrivialTurns(via, intersection, from, to)`
of the intersection handler (not among the sources) gives every road of the
index range `[from, to)` the instruction
`{findBasicTurnType(via, road), getTurnDirection(road.angle)}`. -/
def assignTrivialTurns (ctx : Ctx) (via_edge : Nat) (i : Intersection)
    (fromIdx toIdx : Nat) : Intersection :=
  i.mapIdx fun k r =>
    if fromIdx ≤ k ∧ k < toIdx then
      { r with instruction :=
          ⟨ctx.findBasicTurnType via_edge (frameOf r), ctx.getTurnDirection r.angle⟩ }
    else r

/-- Call site `assignFork(via, *fork->left, *fork->right)`. -/
def applyAssignFork2 (ctx : Ctx) (via_edge : Nat) (i : Intersection)
    (lIdx rIdx : Nat) : Intersection :=
  let p := ctx.forkInstructions2 via_edge (frameOf (roadAt i lIdx)) (frameOf (roadAt i rIdx))
  setInstrAt (setInstrAt i lIdx p.1) rIdx p.2

/-- Call site `assignFork(via, *fork->left, *(fork->right + 1), *fork->right)`. -/
def applyAssignFork3 (ctx : Ctx) (via_edge : Nat) (i : Intersection)
    (lIdx mIdx rIdx : Nat) : Intersection :=
  let p := ctx.forkInstructions3 via_edge (frameOf (roadAt i lIdx))
      (frameOf (roadAt i mIdx)) (frameOf (roadAt i rIdx))
  setInstrAt (setInstrAt (setInstrAt i lIdx p.1) mIdx p.2.1) rIdx p.2.2

/-- count_valid of assignRightTurns: entry-allowed roads at indices
`[1, up_to)`. -/
def countValid (i : Intersection) (up_to : Nat) : Nat :=
  ((List.range' 1 (up_to - 1)).filter fun k => (roadAt i k).entry_allowed).length

/-- TurnHandler::assignRightTurns. -/
def assignRightTurns (ctx : Ctx) (via_edge : Nat) (i : Intersection) (up_to : Nat) :
    Intersection :=
  if up_to ≤ 1 ∨ countValid i up_to = 0 then i
  else if up_to = 2 then
    assignTrivialTurns ctx via_edge i 1 up_to
  else if up_to = 3 then
    if ctx.getTurnDirection (roadAt i 1).angle = ctx.getTurnDirection (roadAt i 2).angle then
      applyConflict ctx via_edge i 2 1
    else
      assignTrivialTurns ctx via_edge i 1 up_to
  else if up_to = 4 then
    let first_direction := ctx.getTurnDirection (roadAt i 1).angle
    let second_direction := ctx.getTurnDirection (roadAt i 2).angle
    let third_direction := ctx.getTurnDirection (roadAt i 3).angle
    if first_direction ≠ second_direction ∧ second_direction ≠ third_direction then
      assignTrivialTurns ctx via_edge i 1 up_to
    else if ((roadAt i 1).entry_allowed.toNat + (roadAt i 2).entry_allowed.toNat +
        (roadAt i 3).entry_allowed.toNat) ≤ 2 then
      if (roadAt i 3).entry_allowed = false then
        applyConflict ctx via_edge i 2 1
      else if (roadAt i 1).entry_allowed = false then
        applyConflict ctx via_edge i 3 2
      else
        applyConflict ctx via_edge i 3 1
    else if angularDeviation (roadAt i 1).angle (roadAt i 2).angle ≥ ctx.narrow ∧
        angularDeviation (roadAt i 2).angle (roadAt i 3).angle ≥ ctx.narrow then
      setInstrAt (setInstrAt (setInstrAt i 1
        ⟨ctx.findBasicTurnType via_edge (frameOf (roadAt i 1)), DirectionModifier.SharpRight⟩) 2
        ⟨ctx.findBasicTurnType via_edge (frameOf (roadAt i 2)), DirectionModifier.Right⟩) 3
        ⟨ctx.findBasicTurnType via_edge (frameOf (roadAt i 3)), DirectionModifier.SlightRight⟩
    else if (first_direction = second_direction ∧ second_direction = third_direction) ∨
        (first_direction = second_direction ∧
          angularDeviation (roadAt i 2).angle (roadAt i 3).angle < ctx.groupAngle) ∨
        (second_direction = third_direction ∧
          angularDeviation (roadAt i 1).angle (roadAt i 2).angle < ctx.groupAngle) then
      assignTrivialTurns ctx via_edge i 1 up_to
    else if (first_direction = second_direction ∧
          angularDeviation (roadAt i 2).angle (roadAt i 3).angle ≥ ctx.groupAngle) ∨
        (second_direction = third_direction ∧
          angularDeviation (roadAt i 1).angle (roadAt i 2).angle ≥ ctx.groupAngle) then
      if angularDeviation (roadAt i 2).angle (roadAt i 3).angle ≥ ctx.groupAngle then
        setInstrAt (applyConflict ctx via_edge i 2 1) 3
          ⟨ctx.findBasicTurnType via_edge (frameOf (roadAt i 3)), third_direction⟩
      else
        applyConflict ctx via_edge
          (setInstrAt i 1
            ⟨ctx.findBasicTurnType via_edge (frameOf (roadAt i 1)), first_direction⟩) 3 2
    else
      assignTrivialTurns ctx via_edge i 1 up_to
  else
    assignTrivialTurns ctx via_edge i 1 up_to

/-- TurnHandler::assignLeftTurns: mirror and reverse, assign right turns for
`size - starting_at + 1` roads, mirror and reverse back. -/
def assignLeftTurns (ctx : Ctx) (via_edge : Nat) (i : Intersection) (starting_at : Nat) :
    Intersection :=
  switchLeftAndRight ctx
    (assignRightTurns ctx via_edge (switchLeftAndRight ctx i) (i.length - starting_at + 1))

/-- TurnHandler::handleOneWayTurn: the intersection is returned unchanged. -/
def handleOneWayTurn (i : Intersection) : Intersection := i

/-- TurnHandler::handleTwoWayTurn. -/
def handleTwoWayTurn (ctx : Ctx) (via_edge : Nat) (i : Intersection) : Intersection :=
  setInstrAt i 1
    (ctx.getInstructionForObvious i.length via_edge false (frameOf (roadAt i 1)))

/-- TurnHandler::handleThreeWayTurn. -/
def handleThreeWayTurn (ctx : Ctx) (via_edge : Nat) (i : Intersection) : Intersection :=
  let obvious_index := ctx.findObviousTurn via_edge (framesOf i)
  let fork := findFork ctx via_edge i
  if fork.isSome ∧ obvious_index = 0 then
    match fork with
    | some f => applyAssignFork2 ctx via_edge i f.left f.right
    | none => i
  else if isEndOfRoad ctx (roadAt i 0) (roadAt i 1) (roadAt i 2) = true ∧ obvious_index = 0 then
    let i1 :=
      if (roadAt i 1).entry_allowed then
        if ctx.findBasicTurnType via_edge (frameOf (roadAt i 1)) ≠ TurnType.OnRamp then
          setInstrAt i 1 ⟨TurnType.EndOfRoad, DirectionModifier.Right⟩
        else
          setInstrAt i 1 ⟨TurnType.OnRamp, DirectionModifier.Right⟩
      else i
    if (roadAt i1 2).entry_allowed then
      if ctx.findBasicTurnType via_edge (frameOf (roadAt i1 2)) ≠ TurnType.OnRamp then
        setInstrAt i1 2 ⟨TurnType.EndOfRoad, DirectionModifier.Left⟩
      else
        setInstrAt i1 2 ⟨TurnType.OnRamp, DirectionModifier.Left⟩
    else i1
  else if obvious_index ≠ 0 then
    let direction_at_one := ctx.getTurnDirection (roadAt i 1).angle
    let direction_at_two := ctx.getTurnDirection (roadAt i 2).angle
    if obvious_index = 1 then
      let i1 := setInstrAt i 1
        (ctx.getInstructionForObvious 3 via_edge (ctx.isThroughStreet 1 (framesOf i))
          (roadAt i 1 |> frameOf))
      let second_direction :=
        if direction_at_one = direction_at_two ∧
            direction_at_two = DirectionModifier.Straight then
          DirectionModifier.SlightLeft
        else direction_at_two
      setInstrAt i1 2
        ⟨ctx.findBasicTurnType via_edge (frameOf (roadAt i1 2)), second_direction⟩
    else
      let i2 := setInstrAt i 2
        (ctx.getInstructionForObvious 3 via_edge (ctx.isThroughStreet 2 (framesOf i))
          (roadAt i 2 |> frameOf))
      let first_direction :=
        if direction_at_one = direction_at_two ∧
            direction_at_one = DirectionModifier.Straight then
          DirectionModifier.SlightRight
        else direction_at_one
      setInstrAt i2 1
        ⟨ctx.findBasicTurnType via_edge (frameOf (roadAt i2 1)), first_direction⟩
  else
    setInstrAt
      (setInstrAt i 1
        ⟨ctx.findBasicTurnType via_edge (frameOf (roadAt i 1)),
         ctx.getTurnDirection (roadAt i 1).angle⟩) 2
      ⟨ctx.findBasicTurnType via_edge (frameOf (roadAt i 2)),
       ctx.getTurnDirection (roadAt i 2).angle⟩

/-- TurnHandler::handleComplexTurn. -/
def handleComplexTurn (ctx : Ctx) (via_edge : Nat) (i : Intersection) : Intersection :=
  let obvious_index := ctx.findObviousTurn via_edge (framesOf i)
  let fork := findFork ctx via_edge i
  let straightmost := findClosestToStraight i
  if obvious_index ≠ 0 then
    let i1 := setInstrAt i obvious_index
      (ctx.getInstructionForObvious i.length via_edge
        (ctx.isThroughStreet obvious_index (framesOf i)) (frameOf (roadAt i obvious_index)))
    assignRightTurns ctx via_edge
      (assignLeftTurns ctx via_edge i1 (obvious_index + 1)) obvious_index
  else
    match fork with
    | some f =>
      let i1 :=
        if f.size = 2 then
          let left_classification := ctx.roadClass (roadAt i f.left).eid
          let right_classification := ctx.roadClass (roadAt i f.right).eid
          if ctx.canBeSeenAsFork left_classification right_classification then
            applyAssignFork2 ctx via_edge i f.left f.right
          else if left_classification.priority > right_classification.priority then
            setInstrAt
              (setInstrAt i f.right
                (ctx.getInstructionForObvious i.length via_edge false
                  (frameOf (roadAt i f.right)))) f.left
              ⟨ctx.findBasicTurnType via_edge (frameOf (roadAt i f.left)),
               DirectionModifier.SlightLeft⟩
          else
            setInstrAt
              (setInstrAt i f.left
                (ctx.getInstructionForObvious i.length via_edge false
                  (frameOf (roadAt i f.left)))) f.right
              ⟨ctx.findBasicTurnType via_edge (frameOf (roadAt i f.right)),
               DirectionModifier.SlightRight⟩
        else if f.size = 3 then
          applyAssignFork3 ctx via_edge i f.left (f.right + 1) f.right
        else i
      assignRightTurns ctx via_edge
        (assignLeftTurns ctx via_edge i1 (f.left + 1)) f.right
    | none =>
      if straightmost.2 < ctx.fuzzy ∧ (roadAt i straightmost.1).entry_allowed = false then
        assignRightTurns ctx via_edge
          (assignLeftTurns ctx via_edge i (straightmost.1 + 1)) straightmost.1
      else if (roadAt i straightmost.1).angle > 180 then
        assignRightTurns ctx via_edge
          (assignLeftTurns ctx via_edge i straightmost.1) straightmost.1
      else if (roadAt i straightmost.1).angle < 180 then
        assignRightTurns ctx via_edge
          (assignLeftTurns ctx via_edge i (straightmost.1 + 1)) (straightmost.1 + 1)
      else
        assignTrivialTurns ctx via_edge i 1 i.length

/-- TurnHandler::operator(): the classifier entry point. -/
def classify (ctx : Ctx) (via_edge : Nat) (i : Intersection) : Intersection :=
  if i.length = 1 then handleOneWayTurn i
  else
    let i0 :=
      if (roadAt i 0).entry_allowed then
        setInstrAt i 0
          ⟨ctx.findBasicTurnType via_edge (frameOf (roadAt i 0)), DirectionModifier.UTurn⟩
      else i
    if i.length = 2 then handleTwoWayTurn ctx via_edge i0
    else if i.length = 3 then handleThreeWayTurn ctx via_edge i0
    else handleComplexTurn ctx via_edge i0

/-- Sortedness by angle of consecutive roads (std::is_sorted with the
angle comparator). -/
def anglesSorted : Intersection → Bool
  | [] => true
  | [_] => true
  | a :: b :: t => decide (a.angle ≤ b.angle) && anglesSorted (b :: t)

/-- Intersection::valid of `intersection.cpp`: non-empty, sorted by angle,
first road essentially at angle 0. -/
def Intersection.valid (ctx : Ctx) (i : Intersection) : Prop :=
  i ≠ [] ∧ anglesSorted i = true ∧ (roadAt i 0).angle < ctx.eps

/-- Data-model invariant: every angle lies in `[0, 360)`. -/
def anglesInRange (i : Intersection) : Prop :=
  ∀ r ∈ i, 0 ≤ r.angle ∧ r.angle < 360

/-- Modelled from the spec: a concrete mirror-symmetric instance of the
toolkit getTurnDirection, with thresholds centered on 180. -/
def gTDstd (a : ℚ) : DirectionModifier :=
  if a < 20 then .UTurn
  else if a < 60 then .SharpRight
  else if a < 140 then .Right
  else if a < 165 then .SlightRight
  else if a ≤ 195 then .Straight
  else if a ≤ 220 then .SlightLeft
  else if a ≤ 300 then .Left
  else if a ≤ 340 then .SharpLeft
  else .UTurn

/-- A concrete context: the constants of `constants.hpp` at their usual
values and simple symmetric oracles (all roads of one class, no obvious
winner by class, distinct names). -/
def stdCtx : Ctx where
  eps := mkRat 1 1000000
  narrow := 25
  groupAngle := 60
  fuzzy := 15
  maxNoTurn := 3
  getTurnDirection := gTDstd
  roadClass := fun _ => ⟨1, false⟩
  nameOf := fun _ => 0
  requiresNameAnnounced := fun _ _ => true
  obviousByRoadClass := fun _ _ _ => false
  canBeSeenAsFork := fun _ _ => false
  findBasicTurnType := fun _ _ => .Turn
  getInstructionForObvious := fun _ _ _ _ => ⟨.Continue, .Straight⟩
  findObviousTurn := fun _ _ => 0
  isThroughStreet := fun _ _ => false
  forkInstructions2 := fun _ _ _ => (⟨.Fork, .SlightLeft⟩, ⟨.Fork, .SlightRight⟩)
  forkInstructions3 := fun _ _ _ _ =>
    (⟨.Fork, .SlightLeft⟩, ⟨.Fork, .Straight⟩, ⟨.Fork, .SlightRight⟩)

/-- A four-way intersection with a two-road fork candidate on the left. -/
def exI : Intersection :=
  [⟨1, 0, 0, true, defaultInstruction⟩,
   ⟨2, 90, 10, true, defaultInstruction⟩,
   ⟨3, 170, 20, true, defaultInstruction⟩,
   ⟨4, 190, 30, true, defaultInstruction⟩]

/-- A T-junction whose U-turn and right turn both disallow entry. -/
def exEnd : Intersection :=
  [⟨1, 0, 0, false, defaultInstruction⟩,
   ⟨2, 90, 10, false, defaultInstruction⟩,
   ⟨3, 270, 20, true, defaultInstruction⟩]

/-- A one-road intersection whose single road carries a non-UTurn instruction. -/
def exOne : Intersection :=
  [⟨1, 0, 0, true, ⟨TurnType.Turn, DirectionModifier.Left⟩⟩]

/-- A context whose classes can always be seen as a fork. -/
def ctxFork : Ctx := { stdCtx with canBeSeenAsFork := fun _ _ => true }

/-- A road with its instruction reset to the default: the classification-
independent data (edge id, angle, bearing, entry flag) of a road. -/
def stripInstr (r : ConnectedRoad) : ConnectedRoad :=
  { r with instruction := defaultInstruction }

/-- The classification-independent part of an intersection; two intersections
with the same `stripped` value differ at most in their instructions. -/
def stripped (i : Intersection) : Intersection :=
  i.map stripInstr

/-- Sanity of the context constants: positive thresholds that leave room
between the back of the intersection and the straight-ahead window (satisfied
by the values of `constants.hpp`: 25 + 60 + eps < 180). -/
def SaneCtx (ctx : Ctx) : Prop :=
  0 < ctx.eps ∧ 0 < ctx.narrow ∧ 0 < ctx.groupAngle ∧
  ctx.narrow + ctx.groupAngle + ctx.eps < 180

/-- Contract of the obviousness oracle: the returned index is in range. -/
def ObviousBounded (ctx : Ctx) : Prop :=
  ∀ v fr, fr ≠ ([] : List RoadFrame) → ctx.findObviousTurn v fr < fr.length

/-- Contract of the instruction-producing oracles: none of them returns the
invalid (default) turn type. -/
def NonDefaultOracles (ctx : Ctx) : Prop :=
  (∀ v f, ctx.findBasicTurnType v f ≠ TurnType.Invalid) ∧
  (∀ n v b f, (ctx.getInstructionForObvious n v b f).type ≠ TurnType.Invalid) ∧
  (∀ v a b, (ctx.forkInstructions2 v a b).1.type ≠ TurnType.Invalid ∧
      (ctx.forkInstructions2 v a b).2.type ≠ TurnType.Invalid) ∧
  (∀ v a b c, (ctx.forkInstructions3 v a b c).1.type ≠ TurnType.Invalid ∧
      (ctx.forkInstructions3 v a b c).2.1.type ≠ TurnType.Invalid ∧
      (ctx.forkInstructions3 v a b c).2.2.type ≠ TurnType.Invalid)

/-- The fall-through condition of isObviousOfTwo: neither road obvious by
class and the perfectly-straight-same-name test false, so that control
reaches the narrowness ratio test. -/
def reachesNarrowness (ctx : Ctx) (via_edge : Nat) (road other : ConnectedRoad) : Bool :=
  !(ctx.obviousByRoadClass (ctx.roadClass via_edge) (ctx.roadClass road.eid)
      (ctx.roadClass other.eid)) &&
  !(ctx.obviousByRoadClass (ctx.roadClass via_edge) (ctx.roadClass other.eid)
      (ctx.roadClass road.eid)) &&
  !(decide (angularDeviation road.angle 180 < ctx.eps) &&
    (ctx.nameOf via_edge != 0) &&
    !(ctx.requiresNameAnnounced (ctx.nameOf via_edge) (ctx.nameOf road.eid)))

/-!
Theorems. The development first relates the evaluation-friendly rational
wrappers to the standard operations, then establishes the structural lemmas
the claims need.
-/

theorem qabs_eq_abs (a : ℚ) : qabs a = |a| := by
  unfold qabs
  rcases lt_or_le a 0 with h | h
  · rw [if_pos h, abs_of_neg h]
  · rw [if_neg (not_lt.mpr h), abs_of_nonneg h]

theorem qmin_eq_min (a b : ℚ) : qmin a b = min a b := by
  unfold qmin
  rcases le_or_lt a b with h | h
  · rw [if_pos h, min_eq_left h]
  · rw [if_neg (not_le.mpr h), min_eq_right h.le]

theorem qsub_eq_sub (a b : ℚ) : qsub a b = a - b := by
  rw [qsub, Rat.mkRat_eq_div]
  conv_rhs => rw [← Rat.num_div_den a, ← Rat.num_div_den b]
  rw [div_sub_div _ _ (by exact_mod_cast a.den_nz) (by exact_mod_cast b.den_nz)]
  push_cast
  ring_nf

theorem qmul_eq_mul (a b : ℚ) : qmul a b = a * b := by
  rw [qmul, Rat.mkRat_eq_div]
  conv_rhs => rw [← Rat.num_div_den a, ← Rat.num_div_den b]
  rw [div_mul_div_comm]
  push_cast
  ring_nf

theorem qdiv_eq_div (a b : ℚ) : qdiv a b = a / b := by
  rcases eq_or_ne b 0 with hb | hb
  · subst hb
    simp [qdiv, Rat.zero_num, Rat.divInt_zero]
  · rw [qdiv, Rat.divInt_eq_div]
    conv_rhs => rw [← Rat.num_div_den a, ← Rat.num_div_den b]
    have had : ((a.den : ℚ)) ≠ 0 := by exact_mod_cast a.den_nz
    have hbd : ((b.den : ℚ)) ≠ 0 := by exact_mod_cast b.den_nz
    have hbn : ((b.num : ℚ)) ≠ 0 := by
      exact_mod_cast Rat.num_ne_zero.mpr hb
    field_simp

theorem angularDeviation_eq (a b : ℚ) :
    angularDeviation a b = min |a - b| (360 - |a - b|) := by
  rw [angularDeviation, qmin_eq_min, qsub_eq_sub, qsub_eq_sub, qabs_eq_abs]


/-! Basic facts about angular deviation. -/

theorem angularDeviation_comm (a b : ℚ) : angularDeviation a b = angularDeviation b a := by
  rw [angularDeviation_eq, angularDeviation_eq, abs_sub_comm]

theorem angularDeviation_eq_abs {a b : ℚ} (h : |a - b| ≤ 180) :
    angularDeviation a b = |a - b| := by
  rw [angularDeviation_eq, min_eq_left (by linarith)]

theorem angularDeviation_180_eq {a : ℚ} (h0 : 0 ≤ a) (h1 : a ≤ 360) :
    angularDeviation a 180 = |a - 180| := by
  apply angularDeviation_eq_abs
  rw [abs_le]
  constructor <;> linarith

theorem angularDeviation_180_nonneg {a : ℚ} (h0 : 0 ≤ a) (h1 : a ≤ 360) :
    0 ≤ angularDeviation a 180 := by
  rw [angularDeviation_180_eq h0 h1]
  exact abs_nonneg _

theorem angularDeviation_180_le {a : ℚ} (h0 : 0 ≤ a) (h1 : a ≤ 360) :
    angularDeviation a 180 ≤ 180 := by
  rw [angularDeviation_180_eq h0 h1, abs_le]
  constructor <;> linarith

/-! The mirror operation. -/

theorem mirroredModifier_involutive (d : DirectionModifier) :
    mirroredModifier (mirroredModifier d) = d := by
  cases d <;> rfl

theorem angularDeviation_zero_mirror {a : ℚ} (h0 : 0 ≤ a) (h1 : a < 360) :
    angularDeviation (qsub 360 a) 0 = angularDeviation a 0 := by
  rw [qsub_eq_sub, angularDeviation_eq, angularDeviation_eq]
  have e1 : |360 - a - 0| = 360 - a := by
    rw [abs_of_nonneg (by linarith)]; ring
  have e2 : |a - 0| = a := by
    rw [abs_of_nonneg (by linarith)]; ring
  rw [e1, e2]
  have : (360 : ℚ) - (360 - a) = a := by ring
  rw [this, min_comm]

theorem mirror_involution (eps : ℚ) (r : ConnectedRoad)
    (h0 : 0 ≤ r.angle) (h1 : r.angle < 360) :
    (r.mirror eps).mirror eps = r := by
  unfold ConnectedRoad.mirror
  by_cases hg : angularDeviation r.angle 0 > eps
  · rw [if_pos hg]
    simp only
    rw [if_pos (by rw [angularDeviation_zero_mirror h0 h1]; exact hg)]
    have ea : qsub 360 (qsub 360 r.angle) = r.angle := by
      rw [qsub_eq_sub, qsub_eq_sub]; ring
    cases r with
    | mk eid angle bearing entry instruction =>
      cases instruction with
      | mk ty dm =>
        simp only at ea ⊢
        rw [ea, mirroredModifier_involutive]
  · rw [if_neg hg, if_neg hg]

/-- C8: the mirror operation is an involution on roads with an angle in the
data-model range: the angle is restored and the direction-modifier table maps
each modifier back to itself after two applications. -/
theorem C8_mirror_involution (eps : ℚ) (r : ConnectedRoad)
    (h0 : 0 ≤ r.angle) (h1 : r.angle < 360) :
    (r.mirror eps).mirror eps = r :=
  mirror_involution eps r h0 h1

/-- C8 witness: the involution at a concrete road. -/
theorem C8_mirror_involution_witness :
    0 ≤ (90 : ℚ) ∧ (90 : ℚ) < 360 ∧
    ((ConnectedRoad.mk 1 90 5 true ⟨TurnType.Turn, DirectionModifier.Right⟩).mirror
        (mkRat 1 1000000)).mirror (mkRat 1 1000000) =
      ConnectedRoad.mk 1 90 5 true ⟨TurnType.Turn, DirectionModifier.Right⟩ :=
  ⟨by norm_num, by norm_num,
   C8_mirror_involution (mkRat 1 1000000)
     (ConnectedRoad.mk 1 90 5 true ⟨TurnType.Turn, DirectionModifier.Right⟩)
     (by norm_num) (by norm_num)⟩

/-! Conflict resolution: the falling-through straight/slight block. -/

/-- C4: in handleDistinctConflict at left angle 170 and right angle 150 (both
entry allowed), the step-2 guard holds (left maps to Straight) and its fork
sub-branch assigns the fork instructions, yet the returned instructions are
the Left/SlightLeft pair of the later tie-break steps: the step-2 assignment
is overwritten because the block does not return. -/
theorem C4_step2_overwritten :
    ctxFork.getTurnDirection (170 : ℚ) = DirectionModifier.Straight ∧
    ctxFork.canBeSeenAsFork (ctxFork.roadClass 1) (ctxFork.roadClass 2) = true ∧
    (ctxFork.forkInstructions2 7 (frameOf ⟨1, 170, 0, true, defaultInstruction⟩)
        (frameOf ⟨2, 150, 0, true, defaultInstruction⟩)).1 =
      ⟨TurnType.Fork, DirectionModifier.SlightLeft⟩ ∧
    (handleDistinctConflict ctxFork 7
        ⟨1, 170, 0, true, defaultInstruction⟩
        ⟨2, 150, 0, true, defaultInstruction⟩).1.instruction =
      ⟨TurnType.Turn, DirectionModifier.Left⟩ ∧
    (handleDistinctConflict ctxFork 7
        ⟨1, 170, 0, true, defaultInstruction⟩
        ⟨2, 150, 0, true, defaultInstruction⟩).2.instruction =
      ⟨TurnType.Turn, DirectionModifier.SlightLeft⟩ := by
  refine ⟨by decide, by decide, by decide, by decide, by decide⟩

/-! Mirror symmetry of the full classifier fails at asymmetric tie-breaks. -/

/-- C1 counterexample: on the valid four-road intersection `exI` with fully
mirror-symmetric oracles, classifying the mirrored intersection and mirroring
the classified intersection disagree at road 1 even in the turn type alone
(Turn versus Continue), which no direction-modifier mirroring can repair: the
equal-priority two-road fork hands the obvious instruction to its left road
in both frames. -/
theorem C1_counterexample :
    Intersection.valid stdCtx exI ∧
    ((instrAt (classify stdCtx 7 (switchLeftAndRight stdCtx exI)) 1).map
        TurnInstruction.type ≠
      (instrAt (switchLeftAndRight stdCtx (classify stdCtx 7 exI)) 1).map
        TurnInstruction.type) ∧
    instrAt (classify stdCtx 7 (switchLeftAndRight stdCtx exI)) 1 =
      some ⟨TurnType.Turn, DirectionModifier.SlightRight⟩ ∧
    instrAt (switchLeftAndRight stdCtx (classify stdCtx 7 exI)) 1 =
      some ⟨TurnType.Continue, DirectionModifier.Straight⟩ := by
  refine ⟨⟨by decide, by decide, by decide⟩, by decide, by decide, by decide⟩

/-! Coverage fails for disallowed roads and for the one-way intersection. -/

/-- C2 counterexample: on the valid T-junction `exEnd` whose roads 0 and 1
disallow entry, classify leaves both with the default instruction: disallowed
roads are skipped by the end-of-road branch and the U-turn assignment. -/
theorem C2_counterexample :
    Intersection.valid stdCtx exEnd ∧
    instrAt (classify stdCtx 7 exEnd) 0 = some defaultInstruction ∧
    instrAt (classify stdCtx 7 exEnd) 1 = some defaultInstruction := by
  refine ⟨⟨by decide, by decide, by decide⟩, by decide, by decide⟩

/-- C5 counterexample: on a valid one-road intersection whose road 0 allows
entry but carries a Left instruction, classify returns the intersection
unchanged, so the result's road 0 does not carry UTurn. -/
theorem C5_counterexample :
    Intersection.valid stdCtx exOne ∧
    (roadAt exOne 0).entry_allowed = true ∧
    (instrAt (classify stdCtx 7 exOne) 0).map TurnInstruction.direction_modifier =
      some DirectionModifier.Left := by
  refine ⟨⟨by decide, by decide, by decide⟩, by decide, by decide⟩

/-! The narrowness test of isObviousOfTwo. -/

/-- C7: when neither road wins by class and the perfectly-straight-same-name
test fails, isObviousOfTwo returns true exactly when the deviation of `other`
from 180 exceeds 1.4 times the deviation of `road` and the two deviations
differ by more than FUZZY_ANGLE_DIFFERENCE. -/
theorem C7_narrowness (ctx : Ctx) (v : Nat) (road other : ConnectedRoad)
    (h1 : ctx.obviousByRoadClass (ctx.roadClass v) (ctx.roadClass road.eid)
        (ctx.roadClass other.eid) = false)
    (h2 : ctx.obviousByRoadClass (ctx.roadClass v) (ctx.roadClass other.eid)
        (ctx.roadClass road.eid) = false)
    (h3 : (decide (angularDeviation road.angle 180 < ctx.eps) &&
        (ctx.nameOf v != 0) &&
        !(ctx.requiresNameAnnounced (ctx.nameOf v) (ctx.nameOf road.eid))) = false)
    (hr0 : 0 ≤ road.angle) (hr1 : road.angle < 360)
    (ho0 : 0 ≤ other.angle) (ho1 : other.angle < 360)
    (_hden : angularDeviation road.angle 180 ≠ 0) :
    isObviousOfTwo ctx v road other = true ↔
      (angularDeviation other.angle 180 / angularDeviation road.angle 180 > 7 / 5 ∧
       |angularDeviation other.angle 180 - angularDeviation road.angle 180| > ctx.fuzzy) := by
  have hdevr0 : 0 ≤ angularDeviation road.angle 180 :=
    angularDeviation_180_nonneg hr0 (le_of_lt hr1)
  have hdevr1 : angularDeviation road.angle 180 ≤ 180 :=
    angularDeviation_180_le hr0 (le_of_lt hr1)
  have hdevo0 : 0 ≤ angularDeviation other.angle 180 :=
    angularDeviation_180_nonneg ho0 (le_of_lt ho1)
  have hdevo1 : angularDeviation other.angle 180 ≤ 180 :=
    angularDeviation_180_le ho0 (le_of_lt ho1)
  have habs : angularDeviation (angularDeviation other.angle 180)
      (angularDeviation road.angle 180) =
      |angularDeviation other.angle 180 - angularDeviation road.angle 180| := by
    apply angularDeviation_eq_abs
    rw [abs_le]
    constructor <;> linarith
  have hmk : (mkRat 7 5 : ℚ) = 7 / 5 := by
    rw [Rat.mkRat_eq_div]
    norm_num
  unfold isObviousOfTwo
  simp only [h1, h2, h3, Bool.false_eq_true, if_false, Bool.and_eq_true,
    decide_eq_true_eq, qdiv_eq_div, habs, hmk]

/-- C7 witness: road at 160 degrees against another at 90 under the standard
context: the test is reached, the ratio 90/20 exceeds 1.4 and the deviation
difference 70 exceeds 15. -/
theorem C7_narrowness_witness :
    isObviousOfTwo stdCtx 7 ⟨1, 160, 0, true, defaultInstruction⟩
        ⟨2, 90, 0, true, defaultInstruction⟩ = true ↔
      (angularDeviation (90 : ℚ) 180 / angularDeviation (160 : ℚ) 180 > 7 / 5 ∧
       |angularDeviation (90 : ℚ) 180 - angularDeviation (160 : ℚ) 180| > stdCtx.fuzzy) :=
  C7_narrowness stdCtx 7 ⟨1, 160, 0, true, defaultInstruction⟩
    ⟨2, 90, 0, true, defaultInstruction⟩ (by decide) (by decide) (by decide)
    (by norm_num) (by norm_num) (by norm_num) (by norm_num) (by decide)

/-! The guarded division of isObviousOfTwo. -/

/-- C10 counterexample: with the unnamed via edge of the standard context and
a road at exactly 180 degrees, the narrowness test is reached while the
denominator of its ratio is zero. -/
theorem C10_counterexample :
    reachesNarrowness stdCtx 7 ⟨1, 180, 0, true, defaultInstruction⟩
        ⟨2, 90, 0, true, defaultInstruction⟩ = true ∧
    angularDeviation (ConnectedRoad.mk 1 180 0 true defaultInstruction).angle 180 = 0 := by
  refine ⟨by decide, by decide⟩

/-- C10 amended: on the narrowness path the denominator can vanish only for a
road at exactly 180 degrees, and then only because the name-based branch
declined for naming reasons (unnamed via edge or differing names); whenever
the road is not perfectly straight the denominator is nonzero. -/
theorem C10_amended (ctx : Ctx) (v : Nat) (road other : ConnectedRoad)
    (heps : 0 < ctx.eps)
    (hr0 : 0 ≤ road.angle) (hr1 : road.angle < 360)
    (hreach : reachesNarrowness ctx v road other = true)
    (hden : angularDeviation road.angle 180 = 0) :
    road.angle = 180 ∧
      (ctx.nameOf v = 0 ∨
        ctx.requiresNameAnnounced (ctx.nameOf v) (ctx.nameOf road.eid) = true) := by
  have hangle : road.angle = 180 := by
    rw [angularDeviation_180_eq hr0 (le_of_lt hr1)] at hden
    have := abs_eq_zero.mp hden
    linarith
  refine ⟨hangle, ?_⟩
  unfold reachesNarrowness at hreach
  simp only [Bool.and_eq_true, Bool.not_eq_true'] at hreach
  have hstraight : decide (angularDeviation road.angle 180 < ctx.eps) = true := by
    rw [hden]
    exact decide_eq_true heps
  rw [hstraight, Bool.true_and] at hreach
  rcases Bool.and_eq_false_iff.mp hreach.2 with h | h
  · left
    simpa using h
  · right
    simpa using h

/-- C10 amended witness: the conclusion at the concrete zero-denominator
input. -/
theorem C10_amended_witness :
    (ConnectedRoad.mk 1 180 0 true defaultInstruction).angle = 180 ∧
      (stdCtx.nameOf 7 = 0 ∨
        stdCtx.requiresNameAnnounced (stdCtx.nameOf 7)
          (stdCtx.nameOf (ConnectedRoad.mk 1 180 0 true defaultInstruction).eid) = true) :=
  C10_amended stdCtx 7 ⟨1, 180, 0, true, defaultInstruction⟩
    ⟨2, 90, 0, true, defaultInstruction⟩ (by decide) (by norm_num) (by norm_num)
    (by decide) (by decide)

/-! Range facts about the straightest-road search and the fork scans. -/

theorem roadAt_entry_lt {i : Intersection} {k : Nat}
    (h : (roadAt i k).entry_allowed = true) : k < i.length := by
  by_contra hk
  push_neg at hk
  rw [roadAt, List.getElem?_eq_none hk] at h
  exact absurd h (by decide)

theorem roadAt_mem {i : Intersection} {k : Nat} (h : k < i.length) : roadAt i k ∈ i := by
  rw [roadAt, List.getElem?_eq_getElem h]
  exact List.getElem_mem h

theorem closestGo_snd_of_fst_zero (i : Intersection) :
    ∀ (fuel k : Nat) (best : Nat × ℚ), 1 ≤ k → (best.1 = 0 → best.2 = 180) →
      (closestGo i fuel k best).1 = 0 → (closestGo i fuel k best).2 = 180 := by
  intro fuel
  induction fuel with
  | zero => intro k best _ hb; exact hb
  | succ n ih =>
    intro k best hk hb
    simp only [closestGo]
    apply ih (k + 1) _ (by omega)
    by_cases hc : ((roadAt i k).entry_allowed = true ∧
        angularDeviation (roadAt i k).angle 180 < best.2)
    · rw [if_pos hc]
      intro h0
      exact absurd h0 (by omega)
    · rw [if_neg hc]
      exact hb

theorem closestGo_fst_bound (i : Intersection) :
    ∀ (fuel k : Nat) (best : Nat × ℚ), (best.1 = 0 ∨ best.1 < i.length) →
      ((closestGo i fuel k best).1 = 0 ∨ (closestGo i fuel k best).1 < i.length) := by
  intro fuel
  induction fuel with
  | zero => intro k best hb; exact hb
  | succ n ih =>
    intro k best hb
    simp only [closestGo]
    apply ih (k + 1)
    by_cases hc : ((roadAt i k).entry_allowed = true ∧
        angularDeviation (roadAt i k).angle 180 < best.2)
    · rw [if_pos hc]
      exact Or.inr (roadAt_entry_lt hc.1)
    · rw [if_neg hc]
      exact hb

theorem findClosestToStraight_snd_of_fst_zero (i : Intersection)
    (h : (findClosestToStraight i).1 = 0) : (findClosestToStraight i).2 = 180 :=
  closestGo_snd_of_fst_zero i (i.length - 1) 1 (0, 180) (by omega) (fun _ => rfl) h

theorem findClosestToStraight_fst_bound (i : Intersection) :
    (findClosestToStraight i).1 = 0 ∨ (findClosestToStraight i).1 < i.length :=
  closestGo_fst_bound i (i.length - 1) 1 (0, 180) (Or.inl rfl)

theorem upScanGo_le (ctx : Ctx) (i : Intersection) :
    ∀ (fuel k : Nat), k + fuel ≤ i.length - 1 → upScanGo ctx i fuel k ≤ i.length - 1 := by
  intro fuel
  induction fuel with
  | zero => intro k _; exact Nat.le_refl _
  | succ n ih =>
    intro k hk
    simp only [upScanGo]
    by_cases hc : isOutermostForkCandidate ctx (roadAt i k) (roadAt i (k + 1)) = true
    · rw [if_pos hc]; omega
    · rw [if_neg hc]
      exact ih (k + 1) (by omega)

theorem upScan_le (ctx : Ctx) (i : Intersection) (k : Nat) (hk : k ≤ i.length - 1) :
    upScan ctx i k ≤ i.length - 1 :=
  upScanGo_le ctx i (i.length - 1 - k) k (by omega)

theorem downScan_pos (ctx : Ctx) (i : Intersection)
    (hpred : isOutermostForkCandidate ctx (roadAt i 1) (roadAt i 0) = true) :
    ∀ s : Nat, 1 ≤ s → 1 ≤ downScan ctx i s := by
  intro s
  induction s with
  | zero => omega
  | succ n ih =>
    intro _
    simp only [downScan]
    by_cases hq : isOutermostForkCandidate ctx (roadAt i (n + 1)) (roadAt i n) = true
    · rw [if_pos hq]; omega
    · rw [if_neg hq]
      rcases Nat.eq_zero_or_pos n with h0 | hp
      · subst h0
        exact absurd hpred hq
      · exact ih hp

theorem isOutermostForkCandidate_iff (ctx : Ctx) (r1 r2 : ConnectedRoad) :
    isOutermostForkCandidate ctx r1 r2 = true ↔
      (angularDeviation r2.angle 180 > ctx.narrow ∧
        (angularDeviation r1.angle r2.angle > ctx.narrow ∨
          angularDeviation r1.angle 180 > ctx.groupAngle)) := by
  unfold isOutermostForkCandidate
  dsimp only
  split_ifs with h1 h2 <;> simp_all

theorem pred_one_zero (ctx : Ctx) (i : Intersection) (hs : SaneCtx ctx)
    (hv : Intersection.valid ctx i) (hr : anglesInRange i) (hlen : 3 ≤ i.length) :
    isOutermostForkCandidate ctx (roadAt i 1) (roadAt i 0) = true := by
  obtain ⟨heps, hn, hg, hsum⟩ := hs
  obtain ⟨_, _, h0eps⟩ := hv
  obtain ⟨h00, _⟩ := hr (roadAt i 0) (roadAt_mem (by omega))
  obtain ⟨h10, h11⟩ := hr (roadAt i 1) (roadAt_mem (by omega))
  set a0 := (roadAt i 0).angle with ha0
  set a1 := (roadAt i 1).angle with ha1
  rw [isOutermostForkCandidate_iff]
  have hdev0 : angularDeviation a0 180 = 180 - a0 := by
    rw [angularDeviation_180_eq h00 (by linarith), abs_of_neg (by linarith)]
    ring
  constructor
  · rw [hdev0]; linarith
  · by_contra hcon
    push_neg at hcon
    obtain ⟨hA, hB⟩ := hcon
    have hdev1 : angularDeviation a1 180 = |a1 - 180| :=
      angularDeviation_180_eq h10 (by linarith)
    rw [hdev1] at hB
    rw [angularDeviation_eq] at hA
    rcases abs_cases (a1 - 180) with ⟨hB1, _⟩ | ⟨hB1, _⟩ <;>
      rcases min_le_iff.mp hA with hA1 | hA1 <;>
      rcases abs_cases (a1 - a0) with ⟨hA2, _⟩ | ⟨hA2, _⟩ <;>
      rw [hB1] at hB <;> rw [hA2] at hA1 <;> linarith

theorem findFork_range (ctx : Ctx) (v : Nat) (i : Intersection) (f : Fork)
    (hs : SaneCtx ctx) (hv : Intersection.valid ctx i) (hr : anglesInRange i)
    (h : findFork ctx v i = some f) :
    (f.size = 2 ∨ f.size = 3) ∧ 1 ≤ f.right ∧ f.right < f.left ∧ f.left < i.length := by
  have hcand : findLeftAndRightmostForkCandidates ctx i = some f := by
    unfold findFork at h
    cases hc : findLeftAndRightmostForkCandidates ctx i with
    | none => rw [hc] at h; exact Option.noConfusion h
    | some g =>
      rw [hc] at h
      dsimp only at h
      split at h <;> split at h <;> first | exact h | exact Option.noConfusion h
  unfold findLeftAndRightmostForkCandidates at hcand
  split at hcand
  case isFalse => exact Option.noConfusion hcand
  case isTrue hlen =>
    dsimp only at hcand
    split at hcand
    case isFalse => exact Option.noConfusion hcand
    case isTrue hnarrowgate =>
      split at hcand
      case isFalse => exact Option.noConfusion hcand
      case isTrue hgate =>
        obtain ⟨hlt, hsz⟩ := hgate
        injection hcand with h'
        subst h'
        have hs1 : 1 ≤ (findClosestToStraight i).1 := by
          rcases Nat.eq_zero_or_pos (findClosestToStraight i).1 with h0 | hp
          · exfalso
            have h180 := findClosestToStraight_snd_of_fst_zero i h0
            rw [h180] at hnarrowgate
            obtain ⟨heps, hn, hg, hsum⟩ := hs
            linarith
          · exact hp
        have hslt : (findClosestToStraight i).1 ≤ i.length - 1 := by
          rcases findClosestToStraight_fst_bound i with h0 | hlt2
          · omega
          · omega
        have hpred := pred_one_zero ctx i hs hv hr hlen
        refine ⟨?_, ?_, hlt, ?_⟩
        · unfold Fork.size
          dsimp only
          omega
        · exact downScan_pos ctx i hpred _ hs1
        · have := upScan_le ctx i (findClosestToStraight i).1 hslt
          dsimp only
          omega

/-- C3: whenever findFork returns a fork, the fork's size is 2 or 3 and the
whole fork range lies within indices `[1, size)`; in particular index 0, the
U-turn road, is never part of the returned fork. -/
theorem C3_fork_range (ctx : Ctx) (v : Nat) (i : Intersection) (f : Fork)
    (hs : SaneCtx ctx) (hv : Intersection.valid ctx i) (hr : anglesInRange i)
    (h : findFork ctx v i = some f) :
    (f.size = 2 ∨ f.size = 3) ∧ 1 ≤ f.right ∧ f.right < f.left ∧ f.left < i.length :=
  findFork_range ctx v i f hs hv hr h

theorem stdCtx_sane : SaneCtx stdCtx := by
  unfold SaneCtx
  refine ⟨by decide, by decide, by decide, ?_⟩
  show (25 : ℚ) + 60 + mkRat 1 1000000 < 180
  norm_num [Rat.mkRat_eq_div]

theorem exI_valid : Intersection.valid stdCtx exI := by
  unfold Intersection.valid
  exact ⟨by decide, by decide, by decide⟩

theorem exI_range : anglesInRange exI := by
  unfold anglesInRange
  decide

/-- C3 witness: the fork found on the concrete intersection `exI` is `{2, 3}`. -/
theorem C3_fork_range_witness :
    ((Fork.mk 2 3).size = 2 ∨ (Fork.mk 2 3).size = 3) ∧ 1 ≤ (Fork.mk 2 3).right ∧
      (Fork.mk 2 3).right < (Fork.mk 2 3).left ∧ (Fork.mk 2 3).left < exI.length :=
  C3_fork_range stdCtx 7 exI ⟨2, 3⟩ stdCtx_sane exI_valid exI_range (by decide)

/-! Pointwise access and update lemmas. -/

theorem length_setInstrAt (i : Intersection) (k : Nat) (t : TurnInstruction) :
    (setInstrAt i k t).length = i.length := by
  unfold setInstrAt
  exact List.length_set i k _

theorem getElem?_setInstrAt (i : Intersection) (k : Nat) (t : TurnInstruction) (n : Nat) :
    (setInstrAt i k t)[n]? =
      if n = k ∧ k < i.length then some { roadAt i k with instruction := t } else i[n]? := by
  unfold setInstrAt
  by_cases hnk : n = k
  · subst hnk
    by_cases hk : n < i.length
    · rw [if_pos ⟨rfl, hk⟩]
      exact List.getElem?_set_self hk
    · rw [if_neg (by tauto)]
      rw [List.set_eq_of_length_le (by omega)]
  · rw [if_neg (by tauto)]
    exact List.getElem?_set_ne (fun h => hnk h.symm)

theorem instrAt_setInstrAt_self {i : Intersection} {k : Nat} {t : TurnInstruction}
    (h : k < i.length) : instrAt (setInstrAt i k t) k = some t := by
  unfold instrAt
  rw [getElem?_setInstrAt, if_pos ⟨rfl, h⟩]
  rfl

theorem instrAt_setInstrAt_ne {i : Intersection} {k : Nat} {t : TurnInstruction} {n : Nat}
    (h : n ≠ k) : instrAt (setInstrAt i k t) n = instrAt i n := by
  unfold instrAt
  rw [getElem?_setInstrAt, if_neg (by tauto)]

theorem roadAt_setInstrAt_ne {i : Intersection} {k : Nat} {t : TurnInstruction} {n : Nat}
    (h : n ≠ k) : roadAt (setInstrAt i k t) n = roadAt i n := by
  unfold roadAt
  rw [getElem?_setInstrAt, if_neg (by tauto)]

theorem ConnectedRoad.eq_of_strip_instr {a b : ConnectedRoad}
    (hs : stripInstr a = stripInstr b) (ht : a.instruction = b.instruction) : a = b := by
  cases a
  cases b
  simp only [stripInstr, ConnectedRoad.mk.injEq] at hs ⊢
  exact ⟨hs.1, hs.2.1, hs.2.2.1, hs.2.2.2.1, ht⟩

theorem eq_of_stripped_instrAt {i j : Intersection}
    (hs : stripped i = stripped j) (ht : ∀ k, instrAt i k = instrAt j k) : i = j := by
  apply List.ext_getElem?
  intro n
  have hsn : (stripped i)[n]? = (stripped j)[n]? := by rw [hs]
  have htn := ht n
  unfold stripped at hsn
  unfold instrAt at htn
  rw [List.getElem?_map, List.getElem?_map] at hsn
  cases hi : i[n]? with
  | none =>
    cases hj : j[n]? with
    | none => rfl
    | some b => rw [hi, hj] at hsn; exact Option.noConfusion hsn
  | some a =>
    cases hj : j[n]? with
    | none => rw [hi, hj] at hsn; exact Option.noConfusion hsn
    | some b =>
      rw [hi, hj] at hsn htn
      simp only [Option.map_some'] at hsn htn
      rw [ConnectedRoad.eq_of_strip_instr (Option.some.inj hsn) (Option.some.inj htn)]

/-! Transfer of frame data between same-frame intersections. -/

theorem stripped_length {i j : Intersection} (h : stripped i = stripped j) :
    i.length = j.length := by
  have := congrArg List.length h
  simpa [stripped] using this

theorem stripInstr_roadAt_congr {i j : Intersection} (h : stripped i = stripped j) (k : Nat) :
    stripInstr (roadAt i k) = stripInstr (roadAt j k) := by
  have hk : (stripped i)[k]? = (stripped j)[k]? := by rw [h]
  unfold stripped at hk
  rw [List.getElem?_map, List.getElem?_map] at hk
  unfold roadAt
  cases hi : i[k]? with
  | none =>
    cases hj : j[k]? with
    | none => rfl
    | some b => rw [hi, hj] at hk; exact Option.noConfusion hk
  | some a =>
    cases hj : j[k]? with
    | none => rw [hi, hj] at hk; exact Option.noConfusion hk
    | some b =>
      rw [hi, hj] at hk
      simpa using Option.some.inj hk

theorem angle_roadAt_congr {i j : Intersection} (h : stripped i = stripped j) (k : Nat) :
    (roadAt i k).angle = (roadAt j k).angle := by
  have := congrArg ConnectedRoad.angle (stripInstr_roadAt_congr h k)
  exact this

theorem entry_roadAt_congr {i j : Intersection} (h : stripped i = stripped j) (k : Nat) :
    (roadAt i k).entry_allowed = (roadAt j k).entry_allowed := by
  have := congrArg ConnectedRoad.entry_allowed (stripInstr_roadAt_congr h k)
  exact this

theorem eid_roadAt_congr {i j : Intersection} (h : stripped i = stripped j) (k : Nat) :
    (roadAt i k).eid = (roadAt j k).eid := by
  have := congrArg ConnectedRoad.eid (stripInstr_roadAt_congr h k)
  exact this

theorem frameOf_roadAt_congr {i j : Intersection} (h : stripped i = stripped j) (k : Nat) :
    frameOf (roadAt i k) = frameOf (roadAt j k) := by
  unfold frameOf
  rw [angle_roadAt_congr h, entry_roadAt_congr h, eid_roadAt_congr h]

theorem framesOf_congr {i j : Intersection} (h : stripped i = stripped j) :
    framesOf i = framesOf j := by
  have e1 : framesOf i = (stripped i).map frameOf := by
    unfold framesOf stripped
    rw [List.map_map]
    rfl
  have e2 : framesOf j = (stripped j).map frameOf := by
    unfold framesOf stripped
    rw [List.map_map]
    rfl
  rw [e1, e2, h]

/-! Frame preservation: every operation only writes instruction fields. -/

theorem stripped_setInstrAt (i : Intersection) (k : Nat) (t : TurnInstruction) :
    stripped (setInstrAt i k t) = stripped i := by
  apply List.ext_getElem?
  intro n
  unfold stripped
  rw [List.getElem?_map, List.getElem?_map, getElem?_setInstrAt]
  by_cases h : n = k ∧ k < i.length
  · rw [if_pos h]
    obtain ⟨hn, hk⟩ := h
    subst hn
    rw [roadAt, List.getElem?_eq_getElem hk]
    rfl
  · rw [if_neg h]

theorem conflictChain_strip (ctx : Ctx) (v : Nat) (l r : ConnectedRoad) :
    stripInstr (conflictChain ctx v l r).1 = stripInstr l ∧
      stripInstr (conflictChain ctx v l r).2 = stripInstr r := by
  unfold conflictChain
  dsimp only
  split_ifs <;> exact ⟨rfl, rfl⟩

theorem conflictStep2_strip (ctx : Ctx) (v : Nat) (l r : ConnectedRoad) :
    stripInstr (conflictStep2 ctx v l r).1 = stripInstr l ∧
      stripInstr (conflictStep2 ctx v l r).2 = stripInstr r := by
  unfold conflictStep2
  dsimp only
  split_ifs <;> exact ⟨rfl, rfl⟩

theorem handleDistinctConflict_strip (ctx : Ctx) (v : Nat) (l r : ConnectedRoad) :
    stripInstr (handleDistinctConflict ctx v l r).1 = stripInstr l ∧
      stripInstr (handleDistinctConflict ctx v l r).2 = stripInstr r := by
  unfold handleDistinctConflict
  by_cases h1 : ((l.entry_allowed = false ∨ r.entry_allowed = false) ∨ l.angle = r.angle)
  · rw [if_pos h1]
    constructor <;> dsimp only <;> split_ifs <;> rfl
  · rw [if_neg h1]
    dsimp only
    refine ⟨?_, ?_⟩
    · rw [(conflictChain_strip ctx v _ _).1, (conflictStep2_strip ctx v l r).1]
    · rw [(conflictChain_strip ctx v _ _).2, (conflictStep2_strip ctx v l r).2]

theorem stripped_applyConflict (ctx : Ctx) (v : Nat) (i : Intersection) (a b : Nat) :
    stripped (applyConflict ctx v i a b) = stripped i := by
  unfold applyConflict
  rw [stripped_setInstrAt, stripped_setInstrAt]

theorem instrAt_assignTrivialTurns (ctx : Ctx) (v : Nat) (i : Intersection)
    (a b n : Nat) :
    instrAt (assignTrivialTurns ctx v i a b) n =
      if a ≤ n ∧ n < b then
        (i[n]?).map fun r =>
          (⟨ctx.findBasicTurnType v (frameOf r), ctx.getTurnDirection r.angle⟩ : TurnInstruction)
      else instrAt i n := by
  unfold assignTrivialTurns instrAt
  rw [List.getElem?_mapIdx]
  cases hn : i[n]? with
  | none => split_ifs <;> simp
  | some a' => split_ifs with h <;> simp [h]

theorem stripped_assignTrivialTurns (ctx : Ctx) (v : Nat) (i : Intersection) (a b : Nat) :
    stripped (assignTrivialTurns ctx v i a b) = stripped i := by
  apply List.ext_getElem?
  intro n
  unfold stripped assignTrivialTurns
  rw [List.getElem?_map, List.getElem?_map, List.getElem?_mapIdx]
  cases hn : i[n]? with
  | none => rfl
  | some a' =>
    simp only [Option.map_some']
    split_ifs <;> rfl

theorem stripped_applyAssignFork2 (ctx : Ctx) (v : Nat) (i : Intersection) (a b : Nat) :
    stripped (applyAssignFork2 ctx v i a b) = stripped i := by
  unfold applyAssignFork2
  rw [stripped_setInstrAt, stripped_setInstrAt]

theorem stripped_applyAssignFork3 (ctx : Ctx) (v : Nat) (i : Intersection) (a b c : Nat) :
    stripped (applyAssignFork3 ctx v i a b c) = stripped i := by
  unfold applyAssignFork3
  rw [stripped_setInstrAt, stripped_setInstrAt, stripped_setInstrAt]

/-! The mirror-and-reverse transform and the instruction-stripping map
commute, and the transform is an involution on in-range angles. -/

theorem stripInstr_mirror (eps : ℚ) (r : ConnectedRoad) :
    stripInstr (r.mirror eps) = (stripInstr r).mirror eps := by
  unfold ConnectedRoad.mirror stripInstr
  by_cases hg : angularDeviation r.angle 0 > eps
  · rw [if_pos hg]
    dsimp only
    rw [if_pos hg]
    rfl
  · rw [if_neg hg]
    dsimp only
    rw [if_neg hg]

theorem stripped_switchLR (ctx : Ctx) (i : Intersection) :
    stripped (switchLeftAndRight ctx i) = switchLeftAndRight ctx (stripped i) := by
  unfold switchLeftAndRight stripped
  cases i with
  | nil => rfl
  | cons hd tl =>
    simp only [List.map_cons, List.map_reverse, List.map_map]
    rw [List.map_congr_left (l := tl)
      (f := stripInstr ∘ ConnectedRoad.mirror ctx.eps)
      (g := ConnectedRoad.mirror ctx.eps ∘ stripInstr)
      (fun a _ => stripInstr_mirror ctx.eps a)]
    rw [stripInstr_mirror]

theorem anglesInRange_of_stripped {a b : Intersection}
    (hs : stripped a = stripped b) (hb : anglesInRange b) : anglesInRange a := by
  intro r hr
  have hmem : stripInstr r ∈ stripped b := by
    rw [← hs]
    exact List.mem_map_of_mem stripInstr hr
  obtain ⟨r0, hr0, he⟩ := List.mem_map.mp hmem
  have : r0.angle = r.angle := by
    have h2 := congrArg ConnectedRoad.angle he
    exact h2
  rw [← this]
  exact hb r0 hr0

theorem anglesInRange_stripped {i : Intersection} (h : anglesInRange i) :
    anglesInRange (stripped i) := by
  intro r hr
  obtain ⟨r0, hr0, he⟩ := List.mem_map.mp hr
  have : r0.angle = r.angle := by
    have h2 := congrArg ConnectedRoad.angle he
    exact h2
  rw [← this]
  exact h r0 hr0

theorem switchLR_switchLR (ctx : Ctx) (i : Intersection) (h : anglesInRange i) :
    switchLeftAndRight ctx (switchLeftAndRight ctx i) = i := by
  unfold switchLeftAndRight
  cases i with
  | nil => rfl
  | cons hd tl =>
    have hhd : (hd.mirror ctx.eps).mirror ctx.eps = hd :=
      mirror_involution _ _ (h hd (by simp)).1 (h hd (by simp)).2
    simp only [List.map_cons, List.map_reverse, List.reverse_reverse, List.map_map]
    rw [hhd]
    have htl : tl.map (ConnectedRoad.mirror ctx.eps ∘ ConnectedRoad.mirror ctx.eps) =
        tl.map id :=
      List.map_congr_left fun a ha =>
        mirror_involution _ _ (h a (by simp [ha])).1 (h a (by simp [ha])).2
    rw [htl, List.map_id]

theorem stripped_assignRightTurns (ctx : Ctx) (v : Nat) (i : Intersection) (u : Nat) :
    stripped (assignRightTurns ctx v i u) = stripped i := by
  unfold assignRightTurns
  by_cases h1 : (u ≤ 1 ∨ countValid i u = 0)
  · rw [if_pos h1]
  · rw [if_neg h1]
    by_cases h2 : u = 2
    · rw [if_pos h2, stripped_assignTrivialTurns]
    · rw [if_neg h2]
      by_cases h3 : u = 3
      · rw [if_pos h3]
        by_cases h3a : ctx.getTurnDirection (roadAt i 1).angle =
            ctx.getTurnDirection (roadAt i 2).angle
        · rw [if_pos h3a, stripped_applyConflict]
        · rw [if_neg h3a, stripped_assignTrivialTurns]
      · rw [if_neg h3]
        by_cases h4 : u = 4
        · rw [if_pos h4]
          dsimp only
          split_ifs <;>
            simp only [stripped_assignTrivialTurns, stripped_applyConflict,
              stripped_setInstrAt]
        · rw [if_neg h4, stripped_assignTrivialTurns]

theorem stripped_assignLeftTurns (ctx : Ctx) (v : Nat) (i : Intersection) (s : Nat)
    (h : anglesInRange i) :
    stripped (assignLeftTurns ctx v i s) = stripped i := by
  unfold assignLeftTurns
  rw [stripped_switchLR, stripped_assignRightTurns, stripped_switchLR,
    switchLR_switchLR ctx (stripped i) (anglesInRange_stripped h)]

theorem stripped_handleTwoWayTurn (ctx : Ctx) (v : Nat) (i : Intersection) :
    stripped (handleTwoWayTurn ctx v i) = stripped i := by
  unfold handleTwoWayTurn
  rw [stripped_setInstrAt]

theorem stripped_handleThreeWayTurn (ctx : Ctx) (v : Nat) (i : Intersection) :
    stripped (handleThreeWayTurn ctx v i) = stripped i := by
  unfold handleThreeWayTurn
  dsimp only
  rcases findFork ctx v i with _ | f <;>
    dsimp only <;>
    split_ifs <;>
    simp only [stripped_setInstrAt, stripped_applyAssignFork2, stripped_applyConflict,
      stripped_assignTrivialTurns]

theorem stripped_handleComplexTurn (ctx : Ctx) (v : Nat) (i : Intersection)
    (h : anglesInRange i) :
    stripped (handleComplexTurn ctx v i) = stripped i := by
  have hAL : ∀ (j : Intersection) (s : Nat), stripped j = stripped i →
      stripped (assignLeftTurns ctx v j s) = stripped i := by
    intro j s hj
    rw [stripped_assignLeftTurns ctx v j s (anglesInRange_of_stripped hj h), hj]
  unfold handleComplexTurn
  dsimp only
  rcases findFork ctx v i with _ | f <;> dsimp only <;> split_ifs <;>
    first
      | rfl
      | rw [stripped_assignTrivialTurns]
      | (rw [stripped_assignRightTurns]
         first
           | exact hAL _ _ rfl
           | exact hAL _ _ (by
               simp only [stripped_setInstrAt, stripped_applyAssignFork2,
                 stripped_applyAssignFork3]))

theorem stripped_classify (ctx : Ctx) (v : Nat) (i : Intersection) (h : anglesInRange i) :
    stripped (classify ctx v i) = stripped i := by
  unfold classify handleOneWayTurn
  dsimp only
  have hset : ∀ t : TurnInstruction, stripped (setInstrAt i 0 t) = stripped i :=
    fun t => stripped_setInstrAt i 0 t
  split_ifs <;>
    first
      | rfl
      | rw [stripped_handleTwoWayTurn, hset]
      | rw [stripped_handleTwoWayTurn]
      | rw [stripped_handleThreeWayTurn, hset]
      | rw [stripped_handleThreeWayTurn]
      | rw [stripped_handleComplexTurn ctx v _
            (anglesInRange_of_stripped (hset _) h), hset]
      | rw [stripped_handleComplexTurn ctx v _ h]

/-- C9: classify returns an intersection with the same number of roads in the
same order, and every road's eid, angle, bearing and entry flag unchanged;
only the instruction fields may differ (the temporary mirror-and-reverse of
assignLeftTurns is fully undone). -/
theorem C9_frame (ctx : Ctx) (v : Nat) (i : Intersection) (h : anglesInRange i) :
    stripped (classify ctx v i) = stripped i ∧
      (classify ctx v i).length = i.length := by
  have hs := stripped_classify ctx v i h
  exact ⟨hs, stripped_length hs⟩

/-- C9 witness: the frame equality at the concrete intersection `exI`. -/
theorem C9_frame_witness :
    stripped (classify stdCtx 7 exI) = stripped exI ∧
      (classify stdCtx 7 exI).length = exI.length :=
  C9_frame stdCtx 7 exI (by unfold anglesInRange; decide)

/-! Transfer of the validity invariant between same-frame intersections, and
road-level untouched-index lemmas. -/

theorem anglesSorted_stripped (i : Intersection) :
    anglesSorted (stripped i) = anglesSorted i := by
  induction i with
  | nil => rfl
  | cons hd tl ih =>
    cases tl with
    | nil => rfl
    | cons b t =>
      show anglesSorted (stripInstr hd :: stripInstr b :: stripped t) = _
      have hih : anglesSorted (stripInstr b :: stripped t) = anglesSorted (b :: t) := ih
      show (decide ((stripInstr hd).angle ≤ (stripInstr b).angle) &&
          anglesSorted (stripInstr b :: stripped t)) = _
      rw [hih]
      rfl

theorem valid_of_stripped {a b : Intersection} (ctx : Ctx)
    (hs : stripped a = stripped b) (hb : Intersection.valid ctx b) :
    Intersection.valid ctx a := by
  obtain ⟨hne, hsort, h0⟩ := hb
  refine ⟨?_, ?_, ?_⟩
  · intro hnil
    apply hne
    have := stripped_length hs
    rw [hnil] at this
    simp at this
    exact List.eq_nil_of_length_eq_zero this.symm
  · rw [← anglesSorted_stripped a, hs, anglesSorted_stripped b]
    exact hsort
  · rw [angle_roadAt_congr hs 0]
    exact h0

theorem anglesInRange_setInstrAt {i : Intersection} (k : Nat) (t : TurnInstruction)
    (h : anglesInRange i) : anglesInRange (setInstrAt i k t) :=
  anglesInRange_of_stripped (stripped_setInstrAt i k t) h

theorem getElem?_eq_of_strip_instr {a b : Intersection}
    (hs : stripped a = stripped b) (n : Nat) (ht : instrAt a n = instrAt b n) :
    a[n]? = b[n]? := by
  have hsn : (stripped a)[n]? = (stripped b)[n]? := by rw [hs]
  unfold stripped at hsn
  unfold instrAt at ht
  rw [List.getElem?_map, List.getElem?_map] at hsn
  cases ha : a[n]? with
  | none =>
    cases hb : b[n]? with
    | none => rfl
    | some y => rw [ha, hb] at hsn; exact Option.noConfusion hsn
  | some x =>
    cases hb : b[n]? with
    | none => rw [ha, hb] at hsn; exact Option.noConfusion hsn
    | some y =>
      rw [ha, hb] at hsn ht
      simp only [Option.map_some'] at hsn ht
      rw [ConnectedRoad.eq_of_strip_instr (Option.some.inj hsn) (Option.some.inj ht)]

theorem instrAt_applyConflict_ne (ctx : Ctx) (v : Nat) (i : Intersection) (a b n : Nat)
    (ha : n ≠ a) (hb : n ≠ b) :
    instrAt (applyConflict ctx v i a b) n = instrAt i n := by
  unfold applyConflict
  rw [instrAt_setInstrAt_ne hb, instrAt_setInstrAt_ne ha]

theorem instrAt_assignRightTurns_out (ctx : Ctx) (v : Nat) (i : Intersection) (u n : Nat)
    (hn : n = 0 ∨ u ≤ n) :
    instrAt (assignRightTurns ctx v i u) n = instrAt i n := by
  have htriv : ∀ a, instrAt (assignTrivialTurns ctx v i 1 a) n = instrAt i n ∨ (1 ≤ n ∧ n < a) := by
    intro a
    rw [instrAt_assignTrivialTurns]
    by_cases hc : 1 ≤ n ∧ n < a
    · exact Or.inr hc
    · rw [if_neg hc]; exact Or.inl rfl
  have htriv' : instrAt (assignTrivialTurns ctx v i 1 u) n = instrAt i n := by
    rcases htriv u with h | h
    · exact h
    · omega
  unfold assignRightTurns
  by_cases h1 : (u ≤ 1 ∨ countValid i u = 0)
  · rw [if_pos h1]
  · rw [if_neg h1]
    by_cases h2 : u = 2
    · rw [if_pos h2]
      subst h2
      exact htriv'
    · rw [if_neg h2]
      by_cases h3 : u = 3
      · rw [if_pos h3]
        subst h3
        by_cases h3a : ctx.getTurnDirection (roadAt i 1).angle =
            ctx.getTurnDirection (roadAt i 2).angle
        · rw [if_pos h3a, instrAt_applyConflict_ne ctx v i 2 1 n (by omega) (by omega)]
        · rw [if_neg h3a]
          exact htriv'
      · rw [if_neg h3]
        by_cases h4 : u = 4
        · rw [if_pos h4]
          subst h4
          dsimp only
          split_ifs <;>
            first
              | exact htriv'
              | (rw [instrAt_applyConflict_ne ctx v i _ _ n (by omega) (by omega)])
              | (rw [instrAt_setInstrAt_ne (by omega), instrAt_setInstrAt_ne (by omega),
                  instrAt_setInstrAt_ne (by omega)])
              | (rw [instrAt_setInstrAt_ne (by omega),
                  instrAt_applyConflict_ne ctx v i _ _ n (by omega) (by omega)])
              | (rw [instrAt_applyConflict_ne ctx v _ _ _ n (by omega) (by omega),
                  instrAt_setInstrAt_ne (by omega)])
        · rw [if_neg h4]
          exact htriv'

theorem roadAt_assignRightTurns_out (ctx : Ctx) (v : Nat) (i : Intersection) (u n : Nat)
    (hn : n = 0 ∨ u ≤ n) :
    (assignRightTurns ctx v i u)[n]? = i[n]? :=
  getElem?_eq_of_strip_instr (stripped_assignRightTurns ctx v i u) n
    (instrAt_assignRightTurns_out ctx v i u n hn)

theorem switchLR_length (ctx : Ctx) (i : Intersection) :
    (switchLeftAndRight ctx i).length = i.length := by
  unfold switchLeftAndRight
  cases i with
  | nil => rfl
  | cons hd tl => simp

theorem getElem?_switchLR_zero (ctx : Ctx) (i : Intersection) :
    (switchLeftAndRight ctx i)[0]? = (i[0]?).map (ConnectedRoad.mirror ctx.eps) := by
  unfold switchLeftAndRight
  cases i with
  | nil => rfl
  | cons hd tl => simp

theorem getElem?_switchLR_pos (ctx : Ctx) (i : Intersection) (n : Nat)
    (h1 : 1 ≤ n) (h2 : n < i.length) :
    (switchLeftAndRight ctx i)[n]? =
      (i[i.length - n]?).map (ConnectedRoad.mirror ctx.eps) := by
  unfold switchLeftAndRight
  cases i with
  | nil => simp at h2
  | cons hd tl =>
    simp only [List.length_cons] at h2 ⊢
    obtain ⟨m, rfl⟩ : ∃ m, n = m + 1 := ⟨n - 1, by omega⟩
    have hm : m < tl.length := by omega
    simp only [List.map_cons, List.getElem?_cons_succ]
    rw [List.getElem?_reverse (by simpa using hm), List.getElem?_map]
    have e1 : tl.length + 1 - (m + 1) = (tl.length - 1 - m) + 1 := by omega
    rw [e1, List.getElem?_cons_succ]
    have e2 : (tl.map (ConnectedRoad.mirror ctx.eps)).length - 1 - m =
        tl.length - 1 - m := by simp
    rw [e2]

theorem range_of_getElem? {i : Intersection} (hr : anglesInRange i) (n : Nat) :
    ∀ r ∈ i[n]?, 0 ≤ r.angle ∧ r.angle < 360 := by
  intro r hrn
  cases hn : i[n]? with
  | none => rw [hn] at hrn; exact absurd hrn (by simp)
  | some a =>
    rw [hn] at hrn
    have ha : a = r := by simpa using hrn
    subst ha
    obtain ⟨hlt, he⟩ := List.getElem?_eq_some.mp hn
    rw [← he]
    exact hr _ (List.getElem_mem hlt)

theorem mirror_opt_involution {ctx : Ctx} {o : Option ConnectedRoad}
    (h : ∀ r ∈ o, 0 ≤ r.angle ∧ r.angle < 360) :
    (o.map (ConnectedRoad.mirror ctx.eps)).map (ConnectedRoad.mirror ctx.eps) = o := by
  cases o with
  | none => rfl
  | some r =>
    simp only [Option.map_some']
    rw [mirror_involution ctx.eps r (h r rfl).1 (h r rfl).2]

theorem roadAt_assignLeftTurns_out (ctx : Ctx) (v : Nat) (i : Intersection) (s n : Nat)
    (hr : anglesInRange i) (hn : n < s) :
    (assignLeftTurns ctx v i s)[n]? = i[n]? := by
  have hYlen : (assignRightTurns ctx v (switchLeftAndRight ctx i)
      (i.length - s + 1)).length = i.length := by
    rw [stripped_length (stripped_assignRightTurns ctx v _ _), switchLR_length]
  unfold assignLeftTurns
  by_cases hlen : n < i.length
  case neg =>
    rw [List.getElem?_eq_none (by rw [switchLR_length, hYlen]; omega),
      List.getElem?_eq_none (by omega)]
  case pos =>
    rcases Nat.eq_zero_or_pos n with h0 | hpos
    · subst h0
      rw [getElem?_switchLR_zero,
        roadAt_assignRightTurns_out ctx v _ _ 0 (Or.inl rfl),
        getElem?_switchLR_zero]
      exact mirror_opt_involution (range_of_getElem? hr 0)
    · rw [getElem?_switchLR_pos ctx _ n hpos (by rw [hYlen]; exact hlen), hYlen,
        roadAt_assignRightTurns_out ctx v _ _ (i.length - n) (Or.inr (by omega)),
        getElem?_switchLR_pos ctx i (i.length - n) (by omega) (by omega)]
      have e : i.length - (i.length - n) = n := by omega
      rw [e]
      exact mirror_opt_involution (range_of_getElem? hr n)

theorem instrAt_applyAssignFork2_ne (ctx : Ctx) (v : Nat) (i : Intersection)
    (a b n : Nat) (ha : n ≠ a) (hb : n ≠ b) :
    instrAt (applyAssignFork2 ctx v i a b) n = instrAt i n := by
  unfold applyAssignFork2
  rw [instrAt_setInstrAt_ne hb, instrAt_setInstrAt_ne ha]

theorem instrAt_applyAssignFork3_ne (ctx : Ctx) (v : Nat) (i : Intersection)
    (a b c n : Nat) (ha : n ≠ a) (hb : n ≠ b) (hc : n ≠ c) :
    instrAt (applyAssignFork3 ctx v i a b c) n = instrAt i n := by
  unfold applyAssignFork3
  rw [instrAt_setInstrAt_ne hc, instrAt_setInstrAt_ne hb, instrAt_setInstrAt_ne ha]

theorem instrAt_assignTrivialTurns_out (ctx : Ctx) (v : Nat) (i : Intersection)
    (a b n : Nat) (h : ¬(a ≤ n ∧ n < b)) :
    instrAt (assignTrivialTurns ctx v i a b) n = instrAt i n := by
  rw [instrAt_assignTrivialTurns, if_neg h]

theorem instrAt_assignLeftTurns_out (ctx : Ctx) (v : Nat) (i : Intersection) (s n : Nat)
    (hr : anglesInRange i) (hn : n < s) :
    instrAt (assignLeftTurns ctx v i s) n = instrAt i n := by
  unfold instrAt
  rw [roadAt_assignLeftTurns_out ctx v i s n hr hn]

theorem instrAt_handleTwoWayTurn_zero (ctx : Ctx) (v : Nat) (i : Intersection) :
    instrAt (handleTwoWayTurn ctx v i) 0 = instrAt i 0 := by
  unfold handleTwoWayTurn
  rw [instrAt_setInstrAt_ne (by omega)]

theorem instrAt_handleThreeWayTurn_zero (ctx : Ctx) (v : Nat) (i : Intersection)
    (hs : SaneCtx ctx) (hv : Intersection.valid ctx i) (hr : anglesInRange i) :
    instrAt (handleThreeWayTurn ctx v i) 0 = instrAt i 0 := by
  unfold handleThreeWayTurn
  dsimp only
  rcases hff : findFork ctx v i with _ | f <;>
    [skip;
     obtain ⟨hsz, hr1, hrl, hlt⟩ := findFork_range ctx v i f hs hv hr hff] <;>
  dsimp only <;>
  split_ifs <;>
    (repeat
      first
        | rw [instrAt_applyAssignFork2_ne ctx v i _ _ 0 (by omega) (by omega)]
        | rw [instrAt_setInstrAt_ne (by omega)]) <;>
  rfl

theorem instrAt_handleComplexTurn_zero (ctx : Ctx) (v : Nat) (i : Intersection)
    (hs : SaneCtx ctx) (hv : Intersection.valid ctx i) (hr : anglesInRange i) :
    instrAt (handleComplexTurn ctx v i) 0 = instrAt i 0 := by
  have heps180 : ctx.eps < 180 := by
    obtain ⟨h1, h2, h3, h4⟩ := hs
    linarith
  have hAL : ∀ (j : Intersection) (s : Nat), stripped j = stripped i → 0 < s →
      instrAt (assignLeftTurns ctx v j s) 0 = instrAt j 0 := by
    intro j s hj hpos
    exact instrAt_assignLeftTurns_out ctx v j s 0 (anglesInRange_of_stripped hj hr) hpos
  have hAR : ∀ (j : Intersection) (u : Nat),
      instrAt (assignRightTurns ctx v j u) 0 = instrAt j 0 := by
    intro j u
    exact instrAt_assignRightTurns_out ctx v j u 0 (Or.inl rfl)
  have hstraight0 : (roadAt i (findClosestToStraight i).1).angle > 180 →
      0 < (findClosestToStraight i).1 := by
    intro hgt
    rcases Nat.eq_zero_or_pos (findClosestToStraight i).1 with h0 | hp
    · exfalso
      rw [h0] at hgt
      have := hv.2.2
      linarith
    · exact hp
  unfold handleComplexTurn
  dsimp only
  rcases hff : findFork ctx v i with _ | f <;>
    [skip;
     obtain ⟨hsz, hr1, hrl, hlt⟩ := findFork_range ctx v i f hs hv hr hff] <;>
  dsimp only <;>
  split_ifs <;>
    first
      | rw [instrAt_assignTrivialTurns_out ctx v i _ _ 0 (by omega)]
      | (rw [hAR,
          hAL _ _
            (by first
              | rfl
              | simp only [stripped_setInstrAt, stripped_applyAssignFork2,
                  stripped_applyAssignFork3])
            (by first | omega | exact hstraight0 (by assumption))]
         repeat
           first
             | rw [instrAt_applyAssignFork2_ne ctx v i _ _ 0 (by omega) (by omega)]
             | rw [instrAt_applyAssignFork3_ne ctx v i _ _ _ 0 (by omega) (by omega)
                 (by omega)]
             | rw [instrAt_setInstrAt_ne (by omega)])

theorem classify_instr_zero (ctx : Ctx) (v : Nat) (i : Intersection)
    (hs : SaneCtx ctx) (hv : Intersection.valid ctx i) (hr : anglesInRange i)
    (hlen : 2 ≤ i.length) (he : (roadAt i 0).entry_allowed = true) :
    instrAt (classify ctx v i) 0 =
      some ⟨ctx.findBasicTurnType v (frameOf (roadAt i 0)), DirectionModifier.UTurn⟩ := by
  unfold classify
  rw [if_neg (by omega)]
  dsimp only
  rw [if_pos he]
  have hstrip : stripped (setInstrAt i 0
      ⟨ctx.findBasicTurnType v (frameOf (roadAt i 0)), DirectionModifier.UTurn⟩) =
      stripped i := stripped_setInstrAt i 0 _
  have hv0 := valid_of_stripped ctx hstrip hv
  have hr0 := anglesInRange_of_stripped hstrip hr
  have hself : instrAt (setInstrAt i 0
      ⟨ctx.findBasicTurnType v (frameOf (roadAt i 0)), DirectionModifier.UTurn⟩) 0 =
      some ⟨ctx.findBasicTurnType v (frameOf (roadAt i 0)), DirectionModifier.UTurn⟩ :=
    instrAt_setInstrAt_self (by omega)
  split_ifs
  · rw [instrAt_handleTwoWayTurn_zero, hself]
  · rw [instrAt_handleThreeWayTurn_zero ctx v _ hs hv0 hr0, hself]
  · rw [instrAt_handleComplexTurn_zero ctx v _ hs hv0 hr0, hself]

/-- C5 amended: for a valid intersection of size at least 2 whose road 0
allows entry, classify marks road 0 with the UTurn direction modifier; the
size-1 case returns the intersection unchanged instead. -/
theorem C5_amended (ctx : Ctx) (v : Nat) (i : Intersection)
    (hs : SaneCtx ctx) (hv : Intersection.valid ctx i) (hr : anglesInRange i)
    (hlen : 2 ≤ i.length) (he : (roadAt i 0).entry_allowed = true) :
    (instrAt (classify ctx v i) 0).map TurnInstruction.direction_modifier =
      some DirectionModifier.UTurn := by
  rw [classify_instr_zero ctx v i hs hv hr hlen he]
  rfl

/-- C5 amended witness: the UTurn marking at the concrete intersection
`exI`. -/
theorem C5_amended_witness :
    (instrAt (classify stdCtx 7 exI) 0).map TurnInstruction.direction_modifier =
      some DirectionModifier.UTurn :=
  C5_amended stdCtx 7 exI stdCtx_sane exI_valid exI_range (by decide) (by decide)

/-! Coverage: every entry-allowed road in an assigner's range receives an
instruction whose type comes from an oracle (so is non-default). -/

theorem mirror_entry (eps : ℚ) (r : ConnectedRoad) :
    (r.mirror eps).entry_allowed = r.entry_allowed := by
  unfold ConnectedRoad.mirror
  split_ifs <;> rfl

theorem mirror_type (eps : ℚ) (r : ConnectedRoad) :
    (r.mirror eps).instruction.type = r.instruction.type := by
  unfold ConnectedRoad.mirror
  split_ifs <;> rfl

theorem countValid_zero {i : Intersection} {u : Nat} (h : countValid i u = 0)
    {n : Nat} (h1 : 1 ≤ n) (h2 : n < u) : (roadAt i n).entry_allowed = false := by
  unfold countValid at h
  rw [List.length_eq_zero] at h
  have hmem : n ∈ List.range' 1 (u - 1) := by
    rw [List.mem_range'_1]
    omega
  have := List.filter_eq_nil.mp h n hmem
  simpa using this

theorem frameOf_of_strip {a b : ConnectedRoad} (h : stripInstr a = stripInstr b) :
    frameOf a = frameOf b := by
  have h1 := congrArg ConnectedRoad.eid h
  have h2 := congrArg ConnectedRoad.angle h
  have h3 := congrArg ConnectedRoad.entry_allowed h
  unfold frameOf
  rw [show a.eid = b.eid from h1, show a.angle = b.angle from h2,
    show a.entry_allowed = b.entry_allowed from h3]

theorem conflictChain_type (ctx : Ctx) (v : Nat) (l r : ConnectedRoad) :
    (conflictChain ctx v l r).1.instruction.type = ctx.findBasicTurnType v (frameOf l) ∧
      (conflictChain ctx v l r).2.instruction.type = ctx.findBasicTurnType v (frameOf r) := by
  unfold conflictChain
  dsimp only
  split_ifs <;> exact ⟨rfl, rfl⟩

theorem handleDistinctConflict_type (ctx : Ctx) (v : Nat) (l r : ConnectedRoad) :
    (l.entry_allowed = true →
      (handleDistinctConflict ctx v l r).1.instruction.type =
        ctx.findBasicTurnType v (frameOf l)) ∧
    (r.entry_allowed = true →
      (handleDistinctConflict ctx v l r).2.instruction.type =
        ctx.findBasicTurnType v (frameOf r)) := by
  unfold handleDistinctConflict
  by_cases h1 : ((l.entry_allowed = false ∨ r.entry_allowed = false) ∨ l.angle = r.angle)
  · rw [if_pos h1]
    constructor <;> intro he <;> dsimp only <;> rw [if_pos he]
  · rw [if_neg h1]
    dsimp only
    constructor <;> intro _
    · rw [(conflictChain_type ctx v _ _).1,
        frameOf_of_strip (conflictStep2_strip ctx v l r).1]
    · rw [(conflictChain_type ctx v _ _).2,
        frameOf_of_strip (conflictStep2_strip ctx v l r).2]

theorem instrAt_applyConflict_left (ctx : Ctx) (v : Nat) (i : Intersection) (a b : Nat)
    (hab : a ≠ b) (ha : a < i.length) :
    instrAt (applyConflict ctx v i a b) a =
      some (handleDistinctConflict ctx v (roadAt i a) (roadAt i b)).1.instruction := by
  unfold applyConflict
  rw [instrAt_setInstrAt_ne hab, instrAt_setInstrAt_self ha]

theorem instrAt_applyConflict_right (ctx : Ctx) (v : Nat) (i : Intersection) (a b : Nat)
    (hb : b < i.length) :
    instrAt (applyConflict ctx v i a b) b =
      some (handleDistinctConflict ctx v (roadAt i a) (roadAt i b)).2.instruction := by
  unfold applyConflict
  rw [instrAt_setInstrAt_self (by rw [length_setInstrAt]; exact hb)]

theorem instrAt_applyAssignFork2_left (ctx : Ctx) (v : Nat) (i : Intersection) (a b : Nat)
    (hab : a ≠ b) (ha : a < i.length) :
    instrAt (applyAssignFork2 ctx v i a b) a =
      some (ctx.forkInstructions2 v (frameOf (roadAt i a)) (frameOf (roadAt i b))).1 := by
  unfold applyAssignFork2
  rw [instrAt_setInstrAt_ne hab, instrAt_setInstrAt_self ha]

theorem instrAt_applyAssignFork2_right (ctx : Ctx) (v : Nat) (i : Intersection) (a b : Nat)
    (hb : b < i.length) :
    instrAt (applyAssignFork2 ctx v i a b) b =
      some (ctx.forkInstructions2 v (frameOf (roadAt i a)) (frameOf (roadAt i b))).2 := by
  unfold applyAssignFork2
  rw [instrAt_setInstrAt_self (by rw [length_setInstrAt]; exact hb)]

theorem instrAt_applyAssignFork3_at (ctx : Ctx) (v : Nat) (i : Intersection) (a b c n : Nat)
    (hn : n = a ∨ n = b ∨ n = c) (hab : a ≠ b) (hac : a ≠ c) (hbc : b ≠ c)
    (hlen : n < i.length) :
    instrAt (applyAssignFork3 ctx v i a b c) n =
      some (if n = c then
          (ctx.forkInstructions3 v (frameOf (roadAt i a)) (frameOf (roadAt i b))
            (frameOf (roadAt i c))).2.2
        else if n = b then
          (ctx.forkInstructions3 v (frameOf (roadAt i a)) (frameOf (roadAt i b))
            (frameOf (roadAt i c))).2.1
        else
          (ctx.forkInstructions3 v (frameOf (roadAt i a)) (frameOf (roadAt i b))
            (frameOf (roadAt i c))).1) := by
  unfold applyAssignFork3
  rcases hn with rfl | rfl | rfl
  · rw [instrAt_setInstrAt_ne hac, instrAt_setInstrAt_ne hab, instrAt_setInstrAt_self hlen,
      if_neg hac, if_neg hab]
  · rw [instrAt_setInstrAt_ne hbc,
      instrAt_setInstrAt_self (by rw [length_setInstrAt]; exact hlen),
      if_neg hbc, if_pos rfl]
  · rw [instrAt_setInstrAt_self
        (by rw [length_setInstrAt, length_setInstrAt]; exact hlen),
      if_pos rfl]

theorem assignRightTurns_cover (ctx : Ctx) (v : Nat) (i : Intersection) (u n : Nat)
    (hnd : NonDefaultOracles ctx) (hu : u ≤ i.length)
    (hn1 : 1 ≤ n) (hnu : n < u) (hall : (roadAt i n).entry_allowed = true) :
    ∃ t, instrAt (assignRightTurns ctx v i u) n = some t ∧ t.type ≠ TurnType.Invalid := by
  have hnlen : n < i.length := by omega
  obtain ⟨r, hr⟩ : ∃ r, i[n]? = some r := ⟨i[n], List.getElem?_eq_getElem hnlen⟩
  have htriv : ∀ b, n < b →
      ∃ t, instrAt (assignTrivialTurns ctx v i 1 b) n = some t ∧
        t.type ≠ TurnType.Invalid := by
    intro b hb
    rw [instrAt_assignTrivialTurns, if_pos ⟨hn1, hb⟩, hr]
    exact ⟨_, rfl, hnd.1 v _⟩
  have hlenAC : ∀ (j : Intersection) (a b : Nat),
      (applyConflict ctx v j a b).length = j.length := by
    intro j a b
    unfold applyConflict
    rw [length_setInstrAt, length_setInstrAt]
  have hconf : ∀ (j : Intersection) (a b : Nat), stripped j = stripped i → a ≠ b →
      a < i.length → b < i.length → (n = a ∨ n = b) →
      ∃ t, instrAt (applyConflict ctx v j a b) n = some t ∧
        t.type ≠ TurnType.Invalid := by
    intro j a b hstrip hab ha hb hcase
    have hjlen : j.length = i.length := stripped_length hstrip
    have hea : (roadAt j a).entry_allowed = (roadAt i a).entry_allowed :=
      entry_roadAt_congr hstrip a
    have heb : (roadAt j b).entry_allowed = (roadAt i b).entry_allowed :=
      entry_roadAt_congr hstrip b
    rcases hcase with rfl | rfl
    · rw [instrAt_applyConflict_left ctx v j n b hab (by omega)]
      refine ⟨_, rfl, ?_⟩
      rw [(handleDistinctConflict_type ctx v _ _).1 (by rw [hea]; exact hall)]
      exact hnd.1 v _
    · rw [instrAt_applyConflict_right ctx v j a n (by omega)]
      refine ⟨_, rfl, ?_⟩
      rw [(handleDistinctConflict_type ctx v _ _).2 (by rw [heb]; exact hall)]
      exact hnd.1 v _
  have hguard : ¬(u ≤ 1 ∨ countValid i u = 0) := by
    rintro (h | h)
    · omega
    · have := countValid_zero h hn1 hnu
      rw [hall] at this
      exact Bool.noConfusion this
  unfold assignRightTurns
  rw [if_neg hguard]
  by_cases h2 : u = 2
  · rw [if_pos h2]
    subst h2
    exact htriv 2 hnu
  · rw [if_neg h2]
    by_cases h3 : u = 3
    · rw [if_pos h3]
      subst h3
      by_cases h3a : ctx.getTurnDirection (roadAt i 1).angle =
          ctx.getTurnDirection (roadAt i 2).angle
      · rw [if_pos h3a]
        exact hconf i 2 1 rfl (by omega) (by omega) (by omega) (by omega)
      · rw [if_neg h3a]
        exact htriv 3 hnu
    · rw [if_neg h3]
      by_cases h4 : u = 4
      · rw [if_pos h4]
        subst h4
        dsimp only
        split_ifs with g1 g2 g3 g4 g5 g6 g7 g8
        · exact htriv 4 hnu
        · have hn3 : n ≠ 3 := by
            intro h
            rw [h] at hall
            rw [hall] at g3
            exact Bool.noConfusion g3
          exact hconf i 2 1 rfl (by omega) (by omega) (by omega) (by omega)
        · have hn1' : n ≠ 1 := by
            intro h
            rw [h] at hall
            rw [hall] at g4
            exact Bool.noConfusion g4
          exact hconf i 3 2 rfl (by omega) (by omega) (by omega) (by omega)
        · have he3 : (roadAt i 3).entry_allowed = true := by
            cases h' : (roadAt i 3).entry_allowed
            · exact absurd h' g3
            · rfl
          have he1 : (roadAt i 1).entry_allowed = true := by
            cases h' : (roadAt i 1).entry_allowed
            · exact absurd h' g4
            · rfl
          have he2 : (roadAt i 2).entry_allowed = false := by
            cases h' : (roadAt i 2).entry_allowed
            · rfl
            · exfalso
              rw [he1, h', he3] at g2
              simp at g2
          have hn2 : n ≠ 2 := by
            intro h
            rw [h] at hall
            rw [hall] at he2
            exact Bool.noConfusion he2
          exact hconf i 3 1 rfl (by omega) (by omega) (by omega) (by omega)
        · rcases (by omega : n = 1 ∨ n = 2 ∨ n = 3) with rfl | rfl | rfl
          · rw [instrAt_setInstrAt_ne (by omega), instrAt_setInstrAt_ne (by omega),
              instrAt_setInstrAt_self (by omega)]
            exact ⟨_, rfl, hnd.1 v _⟩
          · rw [instrAt_setInstrAt_ne (by omega),
              instrAt_setInstrAt_self (by rw [length_setInstrAt]; omega)]
            exact ⟨_, rfl, hnd.1 v _⟩
          · rw [instrAt_setInstrAt_self
              (by rw [length_setInstrAt, length_setInstrAt]; omega)]
            exact ⟨_, rfl, hnd.1 v _⟩
        · exact htriv 4 hnu
        · rcases (by omega : n = 3 ∨ (n = 2 ∨ n = 1)) with rfl | hn'
          · rw [instrAt_setInstrAt_self (by rw [hlenAC]; omega)]
            exact ⟨_, rfl, hnd.1 v _⟩
          · rw [instrAt_setInstrAt_ne (by omega)]
            exact hconf i 2 1 rfl (by omega) (by omega) (by omega) hn'
        · rcases (by omega : n = 1 ∨ (n = 3 ∨ n = 2)) with rfl | hn'
          · rw [instrAt_applyConflict_ne ctx v _ 3 2 1 (by omega) (by omega),
              instrAt_setInstrAt_self (by omega)]
            exact ⟨_, rfl, hnd.1 v _⟩
          · exact hconf (setInstrAt i 1 _) 3 2 (stripped_setInstrAt i 1 _)
              (by omega) (by omega) (by omega) hn'
        · exact htriv 4 hnu
      · rw [if_neg h4]
        exact htriv u hnu

theorem assignLeftTurns_cover (ctx : Ctx) (v : Nat) (i : Intersection) (s n : Nat)
    (hnd : NonDefaultOracles ctx) (hrg : anglesInRange i) (hs1 : 1 ≤ s)
    (hsn : s ≤ n) (hnlen : n < i.length) (hall : (roadAt i n).entry_allowed = true) :
    ∃ t, instrAt (assignLeftTurns ctx v i s) n = some t ∧ t.type ≠ TurnType.Invalid := by
  have hn1 : 1 ≤ n := by omega
  have hXlen : (switchLeftAndRight ctx i).length = i.length := switchLR_length ctx i
  have hYlen : (assignRightTurns ctx v (switchLeftAndRight ctx i)
      (i.length - s + 1)).length = i.length := by
    rw [stripped_length (stripped_assignRightTurns ctx v _ _), hXlen]
  obtain ⟨r, hrn⟩ : ∃ r, i[n]? = some r := ⟨i[n], List.getElem?_eq_getElem hnlen⟩
  have hroad : roadAt i n = r := by
    unfold roadAt
    rw [hrn]
    rfl
  rw [hroad] at hall
  have hXentry : (roadAt (switchLeftAndRight ctx i) (i.length - n)).entry_allowed = true := by
    unfold roadAt
    rw [getElem?_switchLR_pos ctx i (i.length - n) (by omega) (by omega),
      show i.length - (i.length - n) = n by omega, hrn]
    simp only [Option.map_some', Option.getD_some, mirror_entry]
    exact hall
  obtain ⟨t, hty, htne⟩ := assignRightTurns_cover ctx v (switchLeftAndRight ctx i)
    (i.length - s + 1) (i.length - n) hnd (by rw [hXlen]; omega) (by omega) (by omega)
    hXentry
  unfold instrAt at hty
  unfold assignLeftTurns instrAt
  rw [getElem?_switchLR_pos ctx _ n hn1 (by rw [hYlen]; exact hnlen), hYlen]
  cases hYm : (assignRightTurns ctx v (switchLeftAndRight ctx i)
      (i.length - s + 1))[i.length - n]? with
  | none =>
    rw [hYm] at hty
    exact absurd hty (by simp)
  | some y =>
    rw [hYm] at hty
    simp only [Option.map_some'] at hty ⊢
    refine ⟨_, rfl, ?_⟩
    rw [mirror_type]
    injection hty with hty'
    rw [hty']
    exact htne

theorem handleThreeWayTurn_cover (ctx : Ctx) (v : Nat) (i : Intersection)
    (hs : SaneCtx ctx) (hv : Intersection.valid ctx i) (hrg : anglesInRange i)
    (hnd : NonDefaultOracles ctx) (hlen3 : i.length = 3)
    (n : Nat) (hn1 : 1 ≤ n) (hn : n < 3)
    (hall : (roadAt i n).entry_allowed = true) :
    ∃ t, instrAt (handleThreeWayTurn ctx v i) n = some t ∧
      t.type ≠ TurnType.Invalid := by
  have hn12 : n = 1 ∨ n = 2 := by omega
  unfold handleThreeWayTurn
  dsimp only
  by_cases g1 : (findFork ctx v i).isSome = true ∧ ctx.findObviousTurn v (framesOf i) = 0
  · rw [if_pos g1]
    rcases hff : findFork ctx v i with _ | f
    · rw [hff] at g1
      exact absurd g1.1 (by simp)
    · obtain ⟨hsz, hfr1, hfrl, hflt⟩ := findFork_range ctx v i f hs hv hrg hff
      dsimp only
      have hl2 : f.left = 2 := by omega
      have hr1' : f.right = 1 := by omega
      rw [hl2, hr1']
      rcases hn12 with rfl | rfl
      · rw [instrAt_applyAssignFork2_right ctx v i 2 1 (by omega)]
        exact ⟨_, rfl, (hnd.2.2.1 v _ _).2⟩
      · rw [instrAt_applyAssignFork2_left ctx v i 2 1 (by omega) (by omega)]
        exact ⟨_, rfl, (hnd.2.2.1 v _ _).1⟩
  · rw [if_neg g1]
    by_cases g2 : isEndOfRoad ctx (roadAt i 0) (roadAt i 1) (roadAt i 2) = true ∧
        ctx.findObviousTurn v (framesOf i) = 0
    · rw [if_pos g2]
      rcases hn12 with rfl | rfl
      · rw [if_pos hall]
        by_cases hbt : ctx.findBasicTurnType v (frameOf (roadAt i 1)) ≠ TurnType.OnRamp
        · rw [if_pos hbt, roadAt_setInstrAt_ne (show (2 : Nat) ≠ 1 by omega)]
          by_cases he2 : (roadAt i 2).entry_allowed = true
          · rw [if_pos he2]
            by_cases hbt2 : ctx.findBasicTurnType v (frameOf (roadAt i 2)) ≠
                TurnType.OnRamp
            · rw [if_pos hbt2, instrAt_setInstrAt_ne (show (1 : Nat) ≠ 2 by omega),
                instrAt_setInstrAt_self (by omega)]
              exact ⟨_, rfl, by decide⟩
            · rw [if_neg hbt2, instrAt_setInstrAt_ne (show (1 : Nat) ≠ 2 by omega),
                instrAt_setInstrAt_self (by omega)]
              exact ⟨_, rfl, by decide⟩
          · rw [if_neg he2, instrAt_setInstrAt_self (by omega)]
            exact ⟨_, rfl, by decide⟩
        · rw [if_neg hbt, roadAt_setInstrAt_ne (show (2 : Nat) ≠ 1 by omega)]
          by_cases he2 : (roadAt i 2).entry_allowed = true
          · rw [if_pos he2]
            by_cases hbt2 : ctx.findBasicTurnType v (frameOf (roadAt i 2)) ≠
                TurnType.OnRamp
            · rw [if_pos hbt2, instrAt_setInstrAt_ne (show (1 : Nat) ≠ 2 by omega),
                instrAt_setInstrAt_self (by omega)]
              exact ⟨_, rfl, by decide⟩
            · rw [if_neg hbt2, instrAt_setInstrAt_ne (show (1 : Nat) ≠ 2 by omega),
                instrAt_setInstrAt_self (by omega)]
              exact ⟨_, rfl, by decide⟩
          · rw [if_neg he2, instrAt_setInstrAt_self (by omega)]
            exact ⟨_, rfl, by decide⟩
      · by_cases he1 : (roadAt i 1).entry_allowed = true
        · rw [if_pos he1]
          by_cases hbt : ctx.findBasicTurnType v (frameOf (roadAt i 1)) ≠ TurnType.OnRamp
          · rw [if_pos hbt, roadAt_setInstrAt_ne (show (2 : Nat) ≠ 1 by omega),
              if_pos hall]
            by_cases hbt2 : ctx.findBasicTurnType v (frameOf (roadAt i 2)) ≠
                TurnType.OnRamp
            · rw [if_pos hbt2,
                instrAt_setInstrAt_self (by rw [length_setInstrAt]; omega)]
              exact ⟨_, rfl, by decide⟩
            · rw [if_neg hbt2,
                instrAt_setInstrAt_self (by rw [length_setInstrAt]; omega)]
              exact ⟨_, rfl, by decide⟩
          · rw [if_neg hbt, roadAt_setInstrAt_ne (show (2 : Nat) ≠ 1 by omega),
              if_pos hall]
            by_cases hbt2 : ctx.findBasicTurnType v (frameOf (roadAt i 2)) ≠
                TurnType.OnRamp
            · rw [if_pos hbt2,
                instrAt_setInstrAt_self (by rw [length_setInstrAt]; omega)]
              exact ⟨_, rfl, by decide⟩
            · rw [if_neg hbt2,
                instrAt_setInstrAt_self (by rw [length_setInstrAt]; omega)]
              exact ⟨_, rfl, by decide⟩
        · rw [if_neg he1, if_pos hall]
          by_cases hbt2 : ctx.findBasicTurnType v (frameOf (roadAt i 2)) ≠
              TurnType.OnRamp
          · rw [if_pos hbt2, instrAt_setInstrAt_self (by omega)]
            exact ⟨_, rfl, by decide⟩
          · rw [if_neg hbt2, instrAt_setInstrAt_self (by omega)]
            exact ⟨_, rfl, by decide⟩
    · rw [if_neg g2]
      by_cases g3 : ctx.findObviousTurn v (framesOf i) ≠ 0
      · rw [if_pos g3]
        by_cases g4 : ctx.findObviousTurn v (framesOf i) = 1
        · rw [if_pos g4]
          rcases hn12 with rfl | rfl
          · rw [instrAt_setInstrAt_ne (show (1 : Nat) ≠ 2 by omega),
              instrAt_setInstrAt_self (by omega)]
            exact ⟨_, rfl, hnd.2.1 _ _ _ _⟩
          · rw [instrAt_setInstrAt_self (by rw [length_setInstrAt]; omega)]
            exact ⟨_, rfl, hnd.1 v _⟩
        · rw [if_neg g4]
          rcases hn12 with rfl | rfl
          · rw [instrAt_setInstrAt_self (by rw [length_setInstrAt]; omega)]
            exact ⟨_, rfl, hnd.1 v _⟩
          · rw [instrAt_setInstrAt_ne (show (2 : Nat) ≠ 1 by omega),
              instrAt_setInstrAt_self (by omega)]
            exact ⟨_, rfl, hnd.2.1 _ _ _ _⟩
      · rw [if_neg g3]
        rcases hn12 with rfl | rfl
        · rw [instrAt_setInstrAt_ne (show (1 : Nat) ≠ 2 by omega),
            instrAt_setInstrAt_self (by omega)]
          exact ⟨_, rfl, hnd.1 v _⟩
        · rw [instrAt_setInstrAt_self (by rw [length_setInstrAt]; omega)]
          exact ⟨_, rfl, hnd.1 v _⟩

theorem handleComplexTurn_cover (ctx : Ctx) (v : Nat) (i : Intersection)
    (hs : SaneCtx ctx) (hv : Intersection.valid ctx i) (hrg : anglesInRange i)
    (hnd : NonDefaultOracles ctx) (hob : ObviousBounded ctx)
    (n : Nat) (hn1 : 1 ≤ n) (hnlen : n < i.length)
    (hall : (roadAt i n).entry_allowed = true) :
    ∃ t, instrAt (handleComplexTurn ctx v i) n = some t ∧
      t.type ≠ TurnType.Invalid := by
  have hcomb : ∀ (i1 : Intersection) (s u : Nat), stripped i1 = stripped i →
      1 ≤ s → u ≤ s → u ≤ i.length → (n < u ∨ s ≤ n) →
      ∃ t, instrAt (assignRightTurns ctx v (assignLeftTurns ctx v i1 s) u) n =
        some t ∧ t.type ≠ TurnType.Invalid := by
    intro i1 s u hstrip hs1 hus hulen hcase
    have hr1 : anglesInRange i1 := anglesInRange_of_stripped hstrip hrg
    have hlen1 : i1.length = i.length := stripped_length hstrip
    have hstripAL : stripped (assignLeftTurns ctx v i1 s) = stripped i :=
      (stripped_assignLeftTurns ctx v i1 s hr1).trans hstrip
    rcases hcase with hlt | hge
    · exact assignRightTurns_cover ctx v _ u n hnd
        (by rw [stripped_length hstripAL]; omega) hn1 hlt
        (by rw [entry_roadAt_congr hstripAL n]; exact hall)
    · rw [instrAt_assignRightTurns_out ctx v _ u n (Or.inr (by omega))]
      exact assignLeftTurns_cover ctx v i1 s n hnd hr1 hs1 hge (by omega)
        (by rw [entry_roadAt_congr hstrip n]; exact hall)
  have hmid : ∀ (i1 : Intersection) (s u : Nat) (t : TurnInstruction),
      stripped i1 = stripped i → u ≤ n → n < s →
      instrAt i1 n = some t → t.type ≠ TurnType.Invalid →
      ∃ t', instrAt (assignRightTurns ctx v (assignLeftTurns ctx v i1 s) u) n =
        some t' ∧ t'.type ≠ TurnType.Invalid := by
    intro i1 s u t hstrip hun hns hit htt
    have hr1 : anglesInRange i1 := anglesInRange_of_stripped hstrip hrg
    rw [instrAt_assignRightTurns_out ctx v _ u n (Or.inr hun),
      instrAt_assignLeftTurns_out ctx v i1 s n hr1 hns, hit]
    exact ⟨t, rfl, htt⟩
  unfold handleComplexTurn
  dsimp only
  by_cases g1 : ctx.findObviousTurn v (framesOf i) ≠ 0
  · rw [if_pos g1]
    have hoblt : ctx.findObviousTurn v (framesOf i) < i.length := by
      have hne : framesOf i ≠ [] := by
        simp only [framesOf, ne_eq, List.map_eq_nil]
        exact hv.1
      have := hob v (framesOf i) hne
      simpa [framesOf] using this
    rcases Nat.lt_trichotomy n (ctx.findObviousTurn v (framesOf i)) with hlt | heq | hgt
    · exact hcomb _ _ _ (stripped_setInstrAt i _ _) (by omega) (by omega)
        (by omega) (Or.inl hlt)
    · subst heq
      exact hmid _ _ _ _ (stripped_setInstrAt i _ _) (le_refl _) (by omega)
        (instrAt_setInstrAt_self (by omega)) (hnd.2.1 _ _ _ _)
    · exact hcomb _ _ _ (stripped_setInstrAt i _ _) (by omega) (by omega)
        (by omega) (Or.inr (by omega))
  · rw [if_neg g1]
    rcases hff : findFork ctx v i with _ | f
    · dsimp only
      by_cases g2 : (findClosestToStraight i).2 < ctx.fuzzy ∧
          (roadAt i (findClosestToStraight i).1).entry_allowed = false
      · rw [if_pos g2]
        have hne : n ≠ (findClosestToStraight i).1 := by
          intro h
          rw [h] at hall
          rw [hall] at g2
          exact Bool.noConfusion g2.2
        rcases findClosestToStraight_fst_bound i with h0 | hml
        · rw [h0]
          exact hcomb i (0 + 1) 0 rfl (by omega) (by omega) (by omega)
            (Or.inr (by omega))
        · rcases Nat.lt_or_ge n (findClosestToStraight i).1 with hlt | hge
          · exact hcomb i ((findClosestToStraight i).1 + 1)
              (findClosestToStraight i).1 rfl (by omega) (by omega) (by omega)
              (Or.inl hlt)
          · exact hcomb i ((findClosestToStraight i).1 + 1)
              (findClosestToStraight i).1 rfl (by omega) (by omega) (by omega)
              (Or.inr (by omega))
      · rw [if_neg g2]
        by_cases g3 : (roadAt i (findClosestToStraight i).1).angle > 180
        · rw [if_pos g3]
          have hm1 : 1 ≤ (findClosestToStraight i).1 := by
            rcases Nat.eq_zero_or_pos (findClosestToStraight i).1 with h0 | h
            · exfalso
              rw [h0] at g3
              have h0a := hv.2.2
              obtain ⟨he, hna, hga, hsum⟩ := hs
              linarith
            · exact h
          have hmlen : (findClosestToStraight i).1 < i.length := by
            rcases findClosestToStraight_fst_bound i with h0 | h
            · omega
            · exact h
          rcases Nat.lt_or_ge n (findClosestToStraight i).1 with hlt | hge
          · exact hcomb i (findClosestToStraight i).1 (findClosestToStraight i).1
              rfl hm1 (le_refl _) (by omega) (Or.inl hlt)
          · exact hcomb i (findClosestToStraight i).1 (findClosestToStraight i).1
              rfl hm1 (le_refl _) (by omega) (Or.inr hge)
        · rw [if_neg g3]
          by_cases g4 : (roadAt i (findClosestToStraight i).1).angle < 180
          · rw [if_pos g4]
            have hulen : (findClosestToStraight i).1 + 1 ≤ i.length := by
              rcases findClosestToStraight_fst_bound i with h0 | h
              · have hpos : 0 < i.length := List.length_pos.mpr hv.1
                omega
              · omega
            rcases Nat.lt_or_ge n ((findClosestToStraight i).1 + 1) with hlt | hge
            · exact hcomb i ((findClosestToStraight i).1 + 1)
                ((findClosestToStraight i).1 + 1) rfl (by omega) (le_refl _) hulen
                (Or.inl hlt)
            · exact hcomb i ((findClosestToStraight i).1 + 1)
                ((findClosestToStraight i).1 + 1) rfl (by omega) (le_refl _) hulen
                (Or.inr hge)
          · rw [if_neg g4]
            rw [instrAt_assignTrivialTurns, if_pos ⟨hn1, hnlen⟩]
            obtain ⟨r, hrn⟩ : ∃ r, i[n]? = some r := ⟨i[n], List.getElem?_eq_getElem hnlen⟩
            rw [hrn]
            exact ⟨_, rfl, hnd.1 v _⟩
    · obtain ⟨hsz, hfr1, hfrl, hflt⟩ := findFork_range ctx v i f hs hv hrg hff
      dsimp only
      have hstep : ∀ (i1 : Intersection), stripped i1 = stripped i →
          (f.right ≤ n → n ≤ f.left →
            ∃ t, instrAt i1 n = some t ∧ t.type ≠ TurnType.Invalid) →
          ∃ t, instrAt (assignRightTurns ctx v
              (assignLeftTurns ctx v i1 (f.left + 1)) f.right) n = some t ∧
            t.type ≠ TurnType.Invalid := by
        intro i1 hstrip hmidI
        rcases Nat.lt_or_ge n f.right with hlt | hge1
        · exact hcomb i1 (f.left + 1) f.right hstrip (by omega) (by omega)
            (by omega) (Or.inl hlt)
        · rcases Nat.lt_or_ge f.left n with hgt | hle
          · exact hcomb i1 (f.left + 1) f.right hstrip (by omega) (by omega)
              (by omega) (Or.inr (by omega))
          · obtain ⟨t, ht, htt⟩ := hmidI hge1 hle
            exact hmid i1 (f.left + 1) f.right t hstrip (by omega) (by omega) ht htt
      apply hstep
      · rcases hsz with h2 | h3
        · rw [if_pos h2]
          split_ifs
          · exact stripped_applyAssignFork2 ctx v i f.left f.right
          · rw [stripped_setInstrAt, stripped_setInstrAt]
          · rw [stripped_setInstrAt, stripped_setInstrAt]
        · have hne2 : ¬ f.size = 2 := by omega
          rw [if_neg hne2, if_pos h3]
          exact stripped_applyAssignFork3 ctx v i f.left (f.right + 1) f.right
      · intro hge hle
        rcases hsz with h2 | h3
        · rw [if_pos h2]
          have hleq : f.left = f.right + 1 := by
            have h2' := h2
            unfold Fork.size at h2'
            omega
          have hn2 : n = f.right ∨ n = f.left := by omega
          split_ifs with hc hp
          · rcases hn2 with rfl | rfl
            · rw [instrAt_applyAssignFork2_right ctx v i f.left f.right (by omega)]
              exact ⟨_, rfl, (hnd.2.2.1 v _ _).2⟩
            · rw [instrAt_applyAssignFork2_left ctx v i f.left f.right (by omega) (by omega)]
              exact ⟨_, rfl, (hnd.2.2.1 v _ _).1⟩
          · rcases hn2 with rfl | rfl
            · rw [instrAt_setInstrAt_ne (by omega), instrAt_setInstrAt_self (by omega)]
              exact ⟨_, rfl, hnd.2.1 _ _ _ _⟩
            · rw [instrAt_setInstrAt_self (by rw [length_setInstrAt]; omega)]
              exact ⟨_, rfl, hnd.1 v _⟩
          · rcases hn2 with rfl | rfl
            · rw [instrAt_setInstrAt_self (by rw [length_setInstrAt]; omega)]
              exact ⟨_, rfl, hnd.1 v _⟩
            · rw [instrAt_setInstrAt_ne (by omega), instrAt_setInstrAt_self (by omega)]
              exact ⟨_, rfl, hnd.2.1 _ _ _ _⟩
        · have hne2 : ¬ f.size = 2 := by omega
          rw [if_neg hne2, if_pos h3]
          have hleq : f.left = f.right + 2 := by
            have h3' := h3
            unfold Fork.size at h3'
            omega
          have hn3 : n = f.left ∨ n = f.right + 1 ∨ n = f.right := by omega
          rw [instrAt_applyAssignFork3_at ctx v i f.left (f.right + 1) f.right n hn3
            (by omega) (by omega) (by omega) (by omega)]
          refine ⟨_, rfl, ?_⟩
          split_ifs
          · exact (hnd.2.2.2 v _ _ _).2.2
          · exact (hnd.2.2.2 v _ _ _).2.1
          · exact (hnd.2.2.2 v _ _ _).1

/-- C2 (amended): after `classify` on an intersection of at least two roads,
every entry-allowed road carries a non-default instruction, provided the
instruction-producing oracles never return the invalid type and the
obviousness oracle returns an in-range index. -/
theorem C2_amended (ctx : Ctx) (v : Nat) (i : Intersection)
    (hs : SaneCtx ctx) (hv : Intersection.valid ctx i) (hrg : anglesInRange i)
    (hnd : NonDefaultOracles ctx) (hob : ObviousBounded ctx)
    (hlen : 2 ≤ i.length) (n : Nat) (hnlen : n < i.length)
    (hall : (roadAt i n).entry_allowed = true) :
    ∃ t, instrAt (classify ctx v i) n = some t ∧ t ≠ defaultInstruction := by
  have hconv : ∀ t : TurnInstruction, t.type ≠ TurnType.Invalid →
      t ≠ defaultInstruction := by
    intro t h hEq
    exact h (by rw [hEq]; rfl)
  unfold classify
  rw [if_neg (by omega)]
  dsimp only
  rcases Nat.eq_zero_or_pos n with rfl | hn1
  · rw [if_pos hall]
    have hstrip0 : stripped (setInstrAt i 0
        ⟨ctx.findBasicTurnType v (frameOf (roadAt i 0)), DirectionModifier.UTurn⟩) =
        stripped i := stripped_setInstrAt i 0 _
    have hv0 := valid_of_stripped ctx hstrip0 hv
    have hr0 := anglesInRange_of_stripped hstrip0 hrg
    by_cases hl2 : i.length = 2
    · rw [if_pos hl2, instrAt_handleTwoWayTurn_zero, instrAt_setInstrAt_self (by omega)]
      exact ⟨_, rfl, hconv _ (hnd.1 v _)⟩
    · rw [if_neg hl2]
      by_cases hl3 : i.length = 3
      · rw [if_pos hl3, instrAt_handleThreeWayTurn_zero ctx v _ hs hv0 hr0,
          instrAt_setInstrAt_self (by omega)]
        exact ⟨_, rfl, hconv _ (hnd.1 v _)⟩
      · rw [if_neg hl3, instrAt_handleComplexTurn_zero ctx v _ hs hv0 hr0,
          instrAt_setInstrAt_self (by omega)]
        exact ⟨_, rfl, hconv _ (hnd.1 v _)⟩
  · have hmain : ∀ i0 : Intersection, stripped i0 = stripped i →
        ∃ t, instrAt (if i.length = 2 then handleTwoWayTurn ctx v i0
            else if i.length = 3 then handleThreeWayTurn ctx v i0
            else handleComplexTurn ctx v i0) n = some t ∧ t ≠ defaultInstruction := by
      intro i0 hstrip
      have hlen0 : i0.length = i.length := stripped_length hstrip
      have hr0 : anglesInRange i0 := anglesInRange_of_stripped hstrip hrg
      have hv0 : Intersection.valid ctx i0 := valid_of_stripped ctx hstrip hv
      have hall0 : (roadAt i0 n).entry_allowed = true := by
        rw [entry_roadAt_congr hstrip n]
        exact hall
      by_cases hl2 : i.length = 2
      · rw [if_pos hl2]
        have hn1' : n = 1 := by omega
        subst hn1'
        unfold handleTwoWayTurn
        rw [instrAt_setInstrAt_self (by omega)]
        exact ⟨_, rfl, hconv _ (hnd.2.1 _ _ _ _)⟩
      · rw [if_neg hl2]
        by_cases hl3 : i.length = 3
        · rw [if_pos hl3]
          obtain ⟨t, ht, htt⟩ := handleThreeWayTurn_cover ctx v i0 hs hv0 hr0 hnd
            (by omega) n hn1 (by omega) hall0
          exact ⟨t, ht, hconv t htt⟩
        · rw [if_neg hl3]
          obtain ⟨t, ht, htt⟩ := handleComplexTurn_cover ctx v i0 hs hv0 hr0 hnd hob
            n hn1 (by omega) hall0
          exact ⟨t, ht, hconv t htt⟩
    by_cases h0 : (roadAt i 0).entry_allowed = true
    · rw [if_pos h0]
      exact hmain _ (stripped_setInstrAt i 0 _)
    · rw [if_neg h0]
      exact hmain i rfl

/-- C2 witness: on the concrete four-way intersection `exI` with the standard
context, the entry-allowed road 2 ends up with a non-default instruction. -/
theorem C2_amended_witness :
    ∃ t, instrAt (classify stdCtx 7 exI) 2 = some t ∧ t ≠ defaultInstruction :=
  C2_amended stdCtx 7 exI stdCtx_sane exI_valid exI_range
    ⟨fun _ _ => show TurnType.Turn ≠ TurnType.Invalid by decide,
     fun _ _ _ _ => show TurnType.Continue ≠ TurnType.Invalid by decide,
     fun _ _ _ => ⟨show TurnType.Fork ≠ TurnType.Invalid by decide,
       show TurnType.Fork ≠ TurnType.Invalid by decide⟩,
     fun _ _ _ _ => ⟨show TurnType.Fork ≠ TurnType.Invalid by decide,
       show TurnType.Fork ≠ TurnType.Invalid by decide,
       show TurnType.Fork ≠ TurnType.Invalid by decide⟩⟩
    (fun _ fr h => List.length_pos.mpr h)
    (by decide) 2 (by decide) (by decide)

theorem mirror_mem_range {eps : ℚ} (heps : 0 ≤ eps) {r : ConnectedRoad}
    (h0 : 0 ≤ r.angle) (h1 : r.angle < 360) :
    0 ≤ (ConnectedRoad.mirror eps r).angle ∧
      (ConnectedRoad.mirror eps r).angle < 360 := by
  unfold ConnectedRoad.mirror
  split_ifs with hg
  · dsimp only
    rw [qsub_eq_sub]
    rw [angularDeviation_eq] at hg
    rw [show r.angle - 0 = r.angle by ring, abs_of_nonneg h0] at hg
    obtain ⟨hA, hB⟩ := lt_min_iff.mp (lt_of_le_of_lt heps hg)
    constructor <;> linarith
  · exact ⟨h0, h1⟩

theorem anglesInRange_switchLR (ctx : Ctx) (i : Intersection) (heps : 0 ≤ ctx.eps)
    (hr : anglesInRange i) : anglesInRange (switchLeftAndRight ctx i) := by
  cases i with
  | nil =>
    intro r hmem
    exact absurd hmem (by simp [switchLeftAndRight])
  | cons hd tl =>
    intro r hmem
    unfold switchLeftAndRight at hmem
    simp only [List.map_cons] at hmem
    have hmem' : r ∈ (hd :: tl).map (ConnectedRoad.mirror ctx.eps) := by
      simp only [List.map_cons]
      rcases List.mem_cons.mp hmem with rfl | hm
      · exact List.mem_cons_self _ _
      · exact List.mem_cons_of_mem _ (List.mem_reverse.mp hm)
    obtain ⟨r0, hr0, he⟩ := List.mem_map.mp hmem'
    obtain ⟨ha, hb⟩ := hr r0 hr0
    rw [← he]
    exact mirror_mem_range heps ha hb

/-- C1 (amended): mirror symmetry at the side-assigner level. Mirroring and
reversing the output of `assignLeftTurns(v, i, s)` is exactly
`assignRightTurns(v, M(i), size - s + 1)` on the mirrored intersection, for
every nonnegative epsilon and every intersection with in-range angles. -/
theorem C1_amended (ctx : Ctx) (v : Nat) (i : Intersection) (s : Nat)
    (heps : 0 ≤ ctx.eps) (hr : anglesInRange i) :
    switchLeftAndRight ctx (assignLeftTurns ctx v i s) =
      assignRightTurns ctx v (switchLeftAndRight ctx i) (i.length - s + 1) := by
  unfold assignLeftTurns
  exact switchLR_switchLR ctx _
    (anglesInRange_of_stripped (stripped_assignRightTurns ctx v _ _)
      (anglesInRange_switchLR ctx i heps hr))

/-- C1 witness: the assigner-level mirror identity evaluated on the concrete
four-way intersection `exI` with `starting_at = 3`. -/
theorem C1_amended_witness :
    switchLeftAndRight stdCtx (assignLeftTurns stdCtx 7 exI 3) =
      assignRightTurns stdCtx 7 (switchLeftAndRight stdCtx exI) (exI.length - 3 + 1) :=
  C1_amended stdCtx 7 exI 3 (by decide) (by unfold anglesInRange; decide)

/-! Idempotence machinery. `classify` decides every branch from the frame
data (angles, eids, entry flags) only, and every write stores a value that
is a function of the frame data. Over two intersections with equal frames,
each index therefore either receives the same instruction on both, or is
left untouched on both. Applied to `i` and `classify i` (whose frames agree
by `stripped_classify`) this yields idempotence. -/

theorem instrAt_eq_some (i : Intersection) (k : Nat) (h : k < i.length) :
    instrAt i k = some (roadAt i k).instruction := by
  unfold instrAt roadAt
  rw [List.getElem?_eq_getElem h]
  rfl

theorem wstep {j i j' i' j'' i'' : Intersection}
    (h1 : ∀ m, instrAt j'' m = instrAt i'' m ∨
      (instrAt j'' m = instrAt j' m ∧ instrAt i'' m = instrAt i' m))
    (h2 : ∀ m, instrAt j' m = instrAt i' m ∨
      (instrAt j' m = instrAt j m ∧ instrAt i' m = instrAt i m)) :
    ∀ m, instrAt j'' m = instrAt i'' m ∨
      (instrAt j'' m = instrAt j m ∧ instrAt i'' m = instrAt i m) := by
  intro m
  rcases h1 m with h | ⟨ha, hb⟩
  · exact Or.inl h
  · rcases h2 m with h | ⟨hc, hd⟩
    · exact Or.inl (by rw [ha, hb, h])
    · exact Or.inr ⟨ha.trans hc, hb.trans hd⟩

theorem wset {j i : Intersection} (h : stripped j = stripped i) (k : Nat)
    (t : TurnInstruction) : ∀ m,
    instrAt (setInstrAt j k t) m = instrAt (setInstrAt i k t) m ∨
      (instrAt (setInstrAt j k t) m = instrAt j m ∧
       instrAt (setInstrAt i k t) m = instrAt i m) := by
  intro m
  have hlen := stripped_length h
  unfold instrAt
  rw [getElem?_setInstrAt, getElem?_setInstrAt]
  by_cases hc : m = k ∧ k < i.length
  · rw [if_pos hc, if_pos (by omega)]
    left
    rfl
  · rw [if_neg (by rw [hlen]; exact hc), if_neg hc]
    right
    exact ⟨rfl, rfl⟩

theorem wrefl (j i : Intersection) : ∀ m,
    instrAt j m = instrAt i m ∨ (instrAt j m = instrAt j m ∧ instrAt i m = instrAt i m) :=
  fun _ => Or.inr ⟨rfl, rfl⟩

theorem countValid_congr {j i : Intersection} (h : stripped j = stripped i) (u : Nat) :
    countValid j u = countValid i u := by
  unfold countValid
  congr 1
  apply List.filter_congr
  intro k _
  rw [entry_roadAt_congr h k]

theorem closestGo_congr {j i : Intersection} (h : stripped j = stripped i) :
    ∀ fuel k best, closestGo j fuel k best = closestGo i fuel k best := by
  intro fuel
  induction fuel with
  | zero => intro k best; rfl
  | succ n ih =>
    intro k best
    simp only [closestGo]
    rw [angle_roadAt_congr h k, entry_roadAt_congr h k]
    exact ih _ _

theorem findClosestToStraight_congr {j i : Intersection}
    (h : stripped j = stripped i) :
    findClosestToStraight j = findClosestToStraight i := by
  unfold findClosestToStraight
  rw [stripped_length h]
  exact closestGo_congr h _ _ _

theorem isOutermostForkCandidate_congr (ctx : Ctx) {a b a' b' : ConnectedRoad}
    (ha : a.angle = a'.angle) (hb : b.angle = b'.angle) :
    isOutermostForkCandidate ctx a b = isOutermostForkCandidate ctx a' b' := by
  unfold isOutermostForkCandidate
  dsimp only
  rw [ha, hb]

theorem upScanGo_congr (ctx : Ctx) {j i : Intersection}
    (h : stripped j = stripped i) :
    ∀ fuel k, upScanGo ctx j fuel k = upScanGo ctx i fuel k := by
  intro fuel
  induction fuel with
  | zero =>
    intro k
    simp only [upScanGo]
    rw [stripped_length h]
  | succ n ih =>
    intro k
    simp only [upScanGo]
    rw [isOutermostForkCandidate_congr ctx (angle_roadAt_congr h k)
      (angle_roadAt_congr h (k + 1))]
    split_ifs
    · rfl
    · exact ih _

theorem upScan_congr (ctx : Ctx) {j i : Intersection} (h : stripped j = stripped i)
    (k : Nat) : upScan ctx j k = upScan ctx i k := by
  unfold upScan
  rw [stripped_length h]
  exact upScanGo_congr ctx h _ _

theorem downScan_congr (ctx : Ctx) {j i : Intersection} (h : stripped j = stripped i) :
    ∀ k, downScan ctx j k = downScan ctx i k := by
  intro k
  induction k with
  | zero => rfl
  | succ n ih =>
    simp only [downScan]
    rw [isOutermostForkCandidate_congr ctx (angle_roadAt_congr h (n + 1))
      (angle_roadAt_congr h n)]
    split_ifs
    · rfl
    · exact ih

theorem findLeftAndRightmostForkCandidates_congr (ctx : Ctx) {j i : Intersection}
    (h : stripped j = stripped i) :
    findLeftAndRightmostForkCandidates ctx j = findLeftAndRightmostForkCandidates ctx i := by
  unfold findLeftAndRightmostForkCandidates
  rw [stripped_length h, findClosestToStraight_congr h]
  dsimp only
  rw [upScan_congr ctx h, downScan_congr ctx h]

theorem hasValidEntries_congr {j i : Intersection} (h : stripped j = stripped i)
    (a b : Nat) : hasValidEntries j a b = hasValidEntries i a b := by
  unfold hasValidEntries
  congr 1
  funext k
  rw [entry_roadAt_congr h k]

theorem isObviousOfTwo_congr (ctx : Ctx) (v : Nat) {a b a' b' : ConnectedRoad}
    (ha : stripInstr a = stripInstr a') (hb : stripInstr b = stripInstr b') :
    isObviousOfTwo ctx v a b = isObviousOfTwo ctx v a' b' := by
  have h1 := congrArg ConnectedRoad.eid ha
  have h2 := congrArg ConnectedRoad.angle ha
  have h3 := congrArg ConnectedRoad.eid hb
  have h4 := congrArg ConnectedRoad.angle hb
  unfold isObviousOfTwo
  dsimp only
  rw [show a.eid = a'.eid from h1, show a.angle = a'.angle from h2,
    show b.eid = b'.eid from h3, show b.angle = b'.angle from h4]

theorem hasObvious_congr (ctx : Ctx) (v : Nat) {j i : Intersection}
    (h : stripped j = stripped i) (f : Fork) :
    hasObvious ctx v j f = hasObvious ctx v i f := by
  unfold hasObvious
  congr 1
  funext k
  rw [isObviousOfTwo_congr ctx v (stripInstr_roadAt_congr h k)
      (stripInstr_roadAt_congr h (k + 1)),
    isObviousOfTwo_congr ctx v (stripInstr_roadAt_congr h (k + 1))
      (stripInstr_roadAt_congr h k)]

theorem isCompatibleByRoadClass_congr (ctx : Ctx) {j i : Intersection}
    (h : stripped j = stripped i) (f : Fork) :
    isCompatibleByRoadClass ctx j f = isCompatibleByRoadClass ctx i f := by
  unfold isCompatibleByRoadClass
  simp only [eid_roadAt_congr h]

theorem findFork_congr (ctx : Ctx) (v : Nat) {j i : Intersection}
    (h : stripped j = stripped i) : findFork ctx v j = findFork ctx v i := by
  unfold findFork
  rw [findLeftAndRightmostForkCandidates_congr ctx h]
  cases findLeftAndRightmostForkCandidates ctx i with
  | none => rfl
  | some f =>
    dsimp only
    rw [stripped_length h, angle_roadAt_congr h f.left, angle_roadAt_congr h f.right,
      angle_roadAt_congr h (f.right - 1), hasObvious_congr ctx v h f,
      isCompatibleByRoadClass_congr ctx h f, hasValidEntries_congr h f.right f.left]
    by_cases hx : f.left + 1 = i.length
    · rw [if_pos hx, angle_roadAt_congr h 0]
    · rw [if_neg hx]
      rw [angle_roadAt_congr h (f.left + 1)]

set_option maxHeartbeats 2000000 in
theorem conflictChain_congr (ctx : Ctx) (v : Nat) {l r l' r' : ConnectedRoad}
    (hl : stripInstr l = stripInstr l') (hr : stripInstr r = stripInstr r') :
    (conflictChain ctx v l r).1.instruction = (conflictChain ctx v l' r').1.instruction ∧
      (conflictChain ctx v l r).2.instruction =
        (conflictChain ctx v l' r').2.instruction := by
  have hla := congrArg ConnectedRoad.angle hl
  have hra := congrArg ConnectedRoad.angle hr
  have hlf := frameOf_of_strip hl
  have hrf := frameOf_of_strip hr
  unfold conflictChain
  dsimp only
  rw [show l.angle = l'.angle from hla, show r.angle = r'.angle from hra, hlf, hrf]
  split_ifs <;> exact ⟨rfl, rfl⟩

theorem handleDistinctConflict_congr (ctx : Ctx) (v : Nat) {l r l' r' : ConnectedRoad}
    (hl : stripInstr l = stripInstr l') (hr : stripInstr r = stripInstr r') :
    ((handleDistinctConflict ctx v l r).1.instruction =
        (handleDistinctConflict ctx v l' r').1.instruction ∨
      ((handleDistinctConflict ctx v l r).1.instruction = l.instruction ∧
        (handleDistinctConflict ctx v l' r').1.instruction = l'.instruction)) ∧
    ((handleDistinctConflict ctx v l r).2.instruction =
        (handleDistinctConflict ctx v l' r').2.instruction ∨
      ((handleDistinctConflict ctx v l r).2.instruction = r.instruction ∧
        (handleDistinctConflict ctx v l' r').2.instruction = r'.instruction)) := by
  have hla := congrArg ConnectedRoad.angle hl
  have hra := congrArg ConnectedRoad.angle hr
  have hle := congrArg ConnectedRoad.entry_allowed hl
  have hre := congrArg ConnectedRoad.entry_allowed hr
  have hlf := frameOf_of_strip hl
  have hrf := frameOf_of_strip hr
  unfold handleDistinctConflict
  rw [show l.angle = l'.angle from hla, show r.angle = r'.angle from hra,
    show l.entry_allowed = l'.entry_allowed from hle,
    show r.entry_allowed = r'.entry_allowed from hre]
  by_cases hg : (l'.entry_allowed = false ∨ r'.entry_allowed = false) ∨
      l'.angle = r'.angle
  · rw [if_pos hg, if_pos hg]
    constructor
    · by_cases he : l'.entry_allowed = true
      · rw [if_pos he, if_pos he]
        left
        dsimp only
        rw [hlf]
      · rw [if_neg he, if_neg he]
        right
        exact ⟨rfl, rfl⟩
    · by_cases he : r'.entry_allowed = true
      · rw [if_pos he, if_pos he]
        left
        dsimp only
        rw [hrf]
      · rw [if_neg he, if_neg he]
        right
        exact ⟨rfl, rfl⟩
  · rw [if_neg hg, if_neg hg]
    dsimp only
    have hp1 : stripInstr (conflictStep2 ctx v l r).1 =
        stripInstr (conflictStep2 ctx v l' r').1 :=
      ((conflictStep2_strip ctx v l r).1.trans hl).trans
        (conflictStep2_strip ctx v l' r').1.symm
    have hp2 : stripInstr (conflictStep2 ctx v l r).2 =
        stripInstr (conflictStep2 ctx v l' r').2 :=
      ((conflictStep2_strip ctx v l r).2.trans hr).trans
        (conflictStep2_strip ctx v l' r').2.symm
    obtain ⟨e1, e2⟩ := conflictChain_congr ctx v hp1 hp2
    exact ⟨Or.inl e1, Or.inl e2⟩

theorem W_applyConflict (ctx : Ctx) (v : Nat) {j i : Intersection}
    (h : stripped j = stripped i) (a b : Nat) : ∀ m,
    instrAt (applyConflict ctx v j a b) m = instrAt (applyConflict ctx v i a b) m ∨
      (instrAt (applyConflict ctx v j a b) m = instrAt j m ∧
       instrAt (applyConflict ctx v i a b) m = instrAt i m) := by
  intro m
  have hlen := stripped_length h
  have hDCc := handleDistinctConflict_congr ctx v
    (stripInstr_roadAt_congr h a) (stripInstr_roadAt_congr h b)
  have hout : ∀ (X : Intersection) (p1 p2 : TurnInstruction), X.length = i.length →
      ¬ m < i.length →
      instrAt (setInstrAt (setInstrAt X a p1) b p2) m = instrAt X m := by
    intro X p1 p2 hXlen hml
    unfold instrAt
    rw [getElem?_setInstrAt,
      if_neg (by rintro ⟨he, hlt⟩; rw [length_setInstrAt] at hlt; omega),
      getElem?_setInstrAt, if_neg (by rintro ⟨he, hlt⟩; omega)]
  by_cases hmb : m = b
  · subst hmb
    by_cases hml : m < i.length
    · rw [instrAt_applyConflict_right ctx v j a m (by omega),
        instrAt_applyConflict_right ctx v i a m hml]
      rcases hDCc.2 with he | ⟨h1, h2⟩
      · exact Or.inl (by rw [he])
      · right
        constructor
        · rw [h1, instrAt_eq_some j m (by omega)]
        · rw [h2, instrAt_eq_some i m hml]
    · right
      unfold applyConflict
      exact ⟨hout j _ _ hlen hml, hout i _ _ rfl hml⟩
  · by_cases hma : m = a
    · subst hma
      by_cases hml : m < i.length
      · rw [instrAt_applyConflict_left ctx v j m b hmb (by omega),
          instrAt_applyConflict_left ctx v i m b hmb hml]
        rcases hDCc.1 with he | ⟨h1, h2⟩
        · exact Or.inl (by rw [he])
        · right
          constructor
          · rw [h1, instrAt_eq_some j m (by omega)]
          · rw [h2, instrAt_eq_some i m hml]
      · right
        unfold applyConflict
        exact ⟨hout j _ _ hlen hml, hout i _ _ rfl hml⟩
    · rw [instrAt_applyConflict_ne ctx v j a b m hma hmb,
        instrAt_applyConflict_ne ctx v i a b m hma hmb]
      exact Or.inr ⟨rfl, rfl⟩

theorem W_assignTrivialTurns (ctx : Ctx) (v : Nat) {j i : Intersection}
    (h : stripped j = stripped i) (a b : Nat) : ∀ m,
    instrAt (assignTrivialTurns ctx v j a b) m =
        instrAt (assignTrivialTurns ctx v i a b) m ∨
      (instrAt (assignTrivialTurns ctx v j a b) m = instrAt j m ∧
       instrAt (assignTrivialTurns ctx v i a b) m = instrAt i m) := by
  intro m
  have hlen := stripped_length h
  rw [instrAt_assignTrivialTurns, instrAt_assignTrivialTurns]
  by_cases hc : a ≤ m ∧ m < b
  · rw [if_pos hc, if_pos hc]
    left
    by_cases hml : m < i.length
    · obtain ⟨rj, hrj⟩ : ∃ r, j[m]? = some r := ⟨j[m], List.getElem?_eq_getElem (by omega)⟩
      obtain ⟨ri, hri⟩ : ∃ r, i[m]? = some r := ⟨i[m], List.getElem?_eq_getElem hml⟩
      have hsr : stripInstr rj = stripInstr ri := by
        have hx := stripInstr_roadAt_congr h m
        unfold roadAt at hx
        rw [hrj, hri] at hx
        exact hx
      have hang := congrArg ConnectedRoad.angle hsr
      rw [hrj, hri]
      simp only [Option.map_some']
      rw [frameOf_of_strip hsr, show rj.angle = ri.angle from hang]
    · rw [List.getElem?_eq_none (by omega), List.getElem?_eq_none (by omega)]
  · rw [if_neg hc, if_neg hc]
    exact Or.inr ⟨rfl, rfl⟩

theorem W_applyAssignFork2 (ctx : Ctx) (v : Nat) {j i : Intersection}
    (h : stripped j = stripped i) (a b : Nat) : ∀ m,
    instrAt (applyAssignFork2 ctx v j a b) m =
        instrAt (applyAssignFork2 ctx v i a b) m ∨
      (instrAt (applyAssignFork2 ctx v j a b) m = instrAt j m ∧
       instrAt (applyAssignFork2 ctx v i a b) m = instrAt i m) := by
  unfold applyAssignFork2
  dsimp only
  rw [frameOf_roadAt_congr h a, frameOf_roadAt_congr h b]
  exact wstep
    (wset (((stripped_setInstrAt j a _).trans h).trans (stripped_setInstrAt i a _).symm) b _)
    (wset h a _)

theorem W_applyAssignFork3 (ctx : Ctx) (v : Nat) {j i : Intersection}
    (h : stripped j = stripped i) (a b c : Nat) : ∀ m,
    instrAt (applyAssignFork3 ctx v j a b c) m =
        instrAt (applyAssignFork3 ctx v i a b c) m ∨
      (instrAt (applyAssignFork3 ctx v j a b c) m = instrAt j m ∧
       instrAt (applyAssignFork3 ctx v i a b c) m = instrAt i m) := by
  unfold applyAssignFork3
  dsimp only
  rw [frameOf_roadAt_congr h a, frameOf_roadAt_congr h b, frameOf_roadAt_congr h c]
  exact wstep
    (wset ((((stripped_setInstrAt _ b _).trans (stripped_setInstrAt j a _)).trans h).trans
      (((stripped_setInstrAt _ b _).trans (stripped_setInstrAt i a _)).symm)) c _)
    (wstep
      (wset (((stripped_setInstrAt j a _).trans h).trans (stripped_setInstrAt i a _).symm) b _)
      (wset h a _))

theorem W_assignRightTurns (ctx : Ctx) (v : Nat) {j i : Intersection}
    (h : stripped j = stripped i) (u : Nat) : ∀ m,
    instrAt (assignRightTurns ctx v j u) m = instrAt (assignRightTurns ctx v i u) m ∨
      (instrAt (assignRightTurns ctx v j u) m = instrAt j m ∧
       instrAt (assignRightTurns ctx v i u) m = instrAt i m) := by
  intro m
  unfold assignRightTurns
  dsimp only
  rw [countValid_congr h u, angle_roadAt_congr h 1, angle_roadAt_congr h 2,
    angle_roadAt_congr h 3, entry_roadAt_congr h 1, entry_roadAt_congr h 2,
    entry_roadAt_congr h 3, frameOf_roadAt_congr h 1, frameOf_roadAt_congr h 2,
    frameOf_roadAt_congr h 3]
  by_cases h1 : (u ≤ 1 ∨ countValid i u = 0)
  · rw [if_pos h1, if_pos h1]
    exact Or.inr ⟨rfl, rfl⟩
  · rw [if_neg h1, if_neg h1]
    by_cases h2 : u = 2
    · rw [if_pos h2, if_pos h2]
      exact W_assignTrivialTurns ctx v h 1 u m
    · rw [if_neg h2, if_neg h2]
      by_cases h3 : u = 3
      · rw [if_pos h3, if_pos h3]
        by_cases h3a : ctx.getTurnDirection (roadAt i 1).angle =
            ctx.getTurnDirection (roadAt i 2).angle
        · rw [if_pos h3a, if_pos h3a]
          exact W_applyConflict ctx v h 2 1 m
        · rw [if_neg h3a, if_neg h3a]
          exact W_assignTrivialTurns ctx v h 1 u m
      · rw [if_neg h3, if_neg h3]
        by_cases h4 : u = 4
        · rw [if_pos h4, if_pos h4]
          split_ifs <;>
            first
              | exact Or.inr ⟨rfl, rfl⟩
              | exact W_assignTrivialTurns ctx v h 1 u m
              | exact W_applyConflict ctx v h 2 1 m
              | exact W_applyConflict ctx v h 3 2 m
              | exact W_applyConflict ctx v h 3 1 m
              | exact wstep
                  (wset (((stripped_setInstrAt _ 2 _).trans
                      ((stripped_setInstrAt j 1 _).trans h)).trans
                    (((stripped_setInstrAt _ 2 _).trans
                      (stripped_setInstrAt i 1 _)).symm)) 3 _)
                  (wstep
                    (wset (((stripped_setInstrAt j 1 _).trans h).trans
                      (stripped_setInstrAt i 1 _).symm) 2 _)
                    (wset h 1 _)) m
              | exact wstep
                  (wset (((stripped_applyConflict ctx v j 2 1).trans h).trans
                    (stripped_applyConflict ctx v i 2 1).symm) 3 _)
                  (W_applyConflict ctx v h 2 1) m
              | exact wstep
                  (W_applyConflict ctx v (((stripped_setInstrAt j 1 _).trans h).trans
                    (stripped_setInstrAt i 1 _).symm) 3 2)
                  (wset h 1 _) m
        · rw [if_neg h4, if_neg h4]
          exact W_assignTrivialTurns ctx v h 1 u m

theorem W_assignLeftTurns (ctx : Ctx) (v : Nat) {j i : Intersection}
    (h : stripped j = stripped i) (hrj : anglesInRange j) (hri : anglesInRange i)
    (s : Nat) : ∀ m,
    instrAt (assignLeftTurns ctx v j s) m = instrAt (assignLeftTurns ctx v i s) m ∨
      (instrAt (assignLeftTurns ctx v j s) m = instrAt j m ∧
       instrAt (assignLeftTurns ctx v i s) m = instrAt i m) := by
  intro m
  have hlen := stripped_length h
  have hsj : stripped (switchLeftAndRight ctx j) = stripped (switchLeftAndRight ctx i) := by
    rw [stripped_switchLR, stripped_switchLR, h]
  have hARjstr : stripped (assignRightTurns ctx v (switchLeftAndRight ctx j)
      (i.length - s + 1)) = stripped (switchLeftAndRight ctx j) :=
    stripped_assignRightTurns ctx v _ _
  have hARistr : stripped (assignRightTurns ctx v (switchLeftAndRight ctx i)
      (i.length - s + 1)) = stripped (switchLeftAndRight ctx i) :=
    stripped_assignRightTurns ctx v _ _
  have hARjlen : (assignRightTurns ctx v (switchLeftAndRight ctx j)
      (i.length - s + 1)).length = i.length := by
    rw [stripped_length hARjstr, switchLR_length]
    omega
  have hARilen : (assignRightTurns ctx v (switchLeftAndRight ctx i)
      (i.length - s + 1)).length = i.length := by
    rw [stripped_length hARistr, switchLR_length]
  by_cases hml : m < i.length
  case neg =>
    left
    have hLj : (assignLeftTurns ctx v j s).length = i.length := by
      rw [stripped_length (stripped_assignLeftTurns ctx v j s hrj)]
      omega
    have hLi : (assignLeftTurns ctx v i s).length = i.length := by
      rw [stripped_length (stripped_assignLeftTurns ctx v i s hri)]
    unfold instrAt
    rw [List.getElem?_eq_none (by omega), List.getElem?_eq_none (by omega)]
  case pos =>
    rcases Nat.eq_zero_or_pos m with rfl | hm1
    · have hzero : ∀ (x : Intersection), anglesInRange x →
          instrAt (assignLeftTurns ctx v x s) 0 = instrAt x 0 := by
        intro x hx
        unfold assignLeftTurns instrAt
        rw [getElem?_switchLR_zero, roadAt_assignRightTurns_out ctx v _ _ 0 (Or.inl rfl),
          getElem?_switchLR_zero, mirror_opt_involution (range_of_getElem? hx 0)]
      exact Or.inr ⟨hzero j hrj, hzero i hri⟩
    · unfold assignLeftTurns
      rw [hlen]
      have hWAR := W_assignRightTurns ctx v hsj (i.length - s + 1) (i.length - m)
      unfold instrAt
      rw [getElem?_switchLR_pos ctx _ m hm1 (by rw [hARjlen]; exact hml), hARjlen,
        getElem?_switchLR_pos ctx _ m hm1 (by rw [hARilen]; exact hml), hARilen]
      rcases hWAR with heq | ⟨hj', hi'⟩
      · left
        rw [getElem?_eq_of_strip_instr
          ((hARjstr.trans hsj).trans hARistr.symm) (i.length - m) heq]
      · right
        constructor
        · rw [getElem?_eq_of_strip_instr hARjstr (i.length - m) hj',
            getElem?_switchLR_pos ctx j (i.length - m) (by omega) (by omega),
            show j.length - (i.length - m) = m by omega,
            mirror_opt_involution (range_of_getElem? hrj m)]
        · rw [getElem?_eq_of_strip_instr hARistr (i.length - m) hi',
            getElem?_switchLR_pos ctx i (i.length - m) (by omega) (by omega),
            show i.length - (i.length - m) = m by omega,
            mirror_opt_involution (range_of_getElem? hri m)]

theorem W_handleTwoWayTurn (ctx : Ctx) (v : Nat) {j i : Intersection}
    (h : stripped j = stripped i) : ∀ m,
    instrAt (handleTwoWayTurn ctx v j) m = instrAt (handleTwoWayTurn ctx v i) m ∨
      (instrAt (handleTwoWayTurn ctx v j) m = instrAt j m ∧
       instrAt (handleTwoWayTurn ctx v i) m = instrAt i m) := by
  unfold handleTwoWayTurn
  rw [stripped_length h, frameOf_roadAt_congr h 1]
  exact wset h 1 _

theorem W_handleThreeWayTurn (ctx : Ctx) (v : Nat) {j i : Intersection}
    (h : stripped j = stripped i) : ∀ m,
    instrAt (handleThreeWayTurn ctx v j) m = instrAt (handleThreeWayTurn ctx v i) m ∨
      (instrAt (handleThreeWayTurn ctx v j) m = instrAt j m ∧
       instrAt (handleThreeWayTurn ctx v i) m = instrAt i m) := by
  intro m
  have hEOR : isEndOfRoad ctx (roadAt j 0) (roadAt j 1) (roadAt j 2) =
      isEndOfRoad ctx (roadAt i 0) (roadAt i 1) (roadAt i 2) := by
    unfold isEndOfRoad
    rw [angle_roadAt_congr h 1, angle_roadAt_congr h 2]
  have hset1 : ∀ t : TurnInstruction,
      stripped (setInstrAt j 1 t) = stripped (setInstrAt i 1 t) :=
    fun t => ((stripped_setInstrAt j 1 t).trans h).trans (stripped_setInstrAt i 1 t).symm
  unfold handleThreeWayTurn
  dsimp only
  rw [findFork_congr ctx v h, framesOf_congr h, hEOR, angle_roadAt_congr h 1,
    angle_roadAt_congr h 2, entry_roadAt_congr h 1, frameOf_roadAt_congr h 1,
    frameOf_roadAt_congr h 2]
  by_cases g1 : (findFork ctx v i).isSome = true ∧ ctx.findObviousTurn v (framesOf i) = 0
  · rw [if_pos g1, if_pos g1]
    rcases findFork ctx v i with _ | f
    · exact Or.inr ⟨rfl, rfl⟩
    · dsimp only
      exact W_applyAssignFork2 ctx v h f.left f.right m
  · rw [if_neg g1, if_neg g1]
    by_cases g2 : isEndOfRoad ctx (roadAt i 0) (roadAt i 1) (roadAt i 2) = true ∧
        ctx.findObviousTurn v (framesOf i) = 0
    · rw [if_pos g2, if_pos g2]
      by_cases he1 : (roadAt i 1).entry_allowed = true
      · rw [if_pos he1, if_pos he1]
        by_cases hbt : ctx.findBasicTurnType v (frameOf (roadAt i 1)) ≠ TurnType.OnRamp
        · rw [if_pos hbt, if_pos hbt,
            roadAt_setInstrAt_ne (show (2 : Nat) ≠ 1 by omega),
            roadAt_setInstrAt_ne (show (2 : Nat) ≠ 1 by omega),
            entry_roadAt_congr h 2, frameOf_roadAt_congr h 2]
          by_cases he2 : (roadAt i 2).entry_allowed = true
          · rw [if_pos he2, if_pos he2]
            by_cases hbt2 : ctx.findBasicTurnType v (frameOf (roadAt i 2)) ≠
                TurnType.OnRamp
            · rw [if_pos hbt2, if_pos hbt2]
              exact wstep (wset (hset1 _) 2 _) (wset h 1 _) m
            · rw [if_neg hbt2, if_neg hbt2]
              exact wstep (wset (hset1 _) 2 _) (wset h 1 _) m
          · rw [if_neg he2, if_neg he2]
            exact wset h 1 _ m
        · rw [if_neg hbt, if_neg hbt,
            roadAt_setInstrAt_ne (show (2 : Nat) ≠ 1 by omega),
            roadAt_setInstrAt_ne (show (2 : Nat) ≠ 1 by omega),
            entry_roadAt_congr h 2, frameOf_roadAt_congr h 2]
          by_cases he2 : (roadAt i 2).entry_allowed = true
          · rw [if_pos he2, if_pos he2]
            by_cases hbt2 : ctx.findBasicTurnType v (frameOf (roadAt i 2)) ≠
                TurnType.OnRamp
            · rw [if_pos hbt2, if_pos hbt2]
              exact wstep (wset (hset1 _) 2 _) (wset h 1 _) m
            · rw [if_neg hbt2, if_neg hbt2]
              exact wstep (wset (hset1 _) 2 _) (wset h 1 _) m
          · rw [if_neg he2, if_neg he2]
            exact wset h 1 _ m
      · rw [if_neg he1, if_neg he1, entry_roadAt_congr h 2, frameOf_roadAt_congr h 2]
        by_cases he2 : (roadAt i 2).entry_allowed = true
        · rw [if_pos he2, if_pos he2]
          by_cases hbt2 : ctx.findBasicTurnType v (frameOf (roadAt i 2)) ≠
              TurnType.OnRamp
          · rw [if_pos hbt2, if_pos hbt2]
            exact wset h 2 _ m
          · rw [if_neg hbt2, if_neg hbt2]
            exact wset h 2 _ m
        · rw [if_neg he2, if_neg he2]
          exact Or.inr ⟨rfl, rfl⟩
    · rw [if_neg g2, if_neg g2]
      by_cases g3 : ctx.findObviousTurn v (framesOf i) ≠ 0
      · rw [if_pos g3, if_pos g3]
        by_cases g4 : ctx.findObviousTurn v (framesOf i) = 1
        · rw [if_pos g4, if_pos g4,
            roadAt_setInstrAt_ne (show (2 : Nat) ≠ 1 by omega),
            roadAt_setInstrAt_ne (show (2 : Nat) ≠ 1 by omega),
            frameOf_roadAt_congr h 2]
          exact wstep (wset (hset1 _) 2 _) (wset h 1 _) m
        · rw [if_neg g4, if_neg g4,
            roadAt_setInstrAt_ne (show (1 : Nat) ≠ 2 by omega),
            roadAt_setInstrAt_ne (show (1 : Nat) ≠ 2 by omega),
            frameOf_roadAt_congr h 1]
          exact wstep
            (wset (((stripped_setInstrAt j 2 _).trans h).trans
              (stripped_setInstrAt i 2 _).symm) 1 _)
            (wset h 2 _) m
      · rw [if_neg g3, if_neg g3]
        exact wstep (wset (hset1 _) 2 _) (wset h 1 _) m

theorem W_handleComplexTurn (ctx : Ctx) (v : Nat) {j i : Intersection}
    (h : stripped j = stripped i) (hrj : anglesInRange j) (hri : anglesInRange i) :
    ∀ m,
    instrAt (handleComplexTurn ctx v j) m = instrAt (handleComplexTurn ctx v i) m ∨
      (instrAt (handleComplexTurn ctx v j) m = instrAt j m ∧
       instrAt (handleComplexTurn ctx v i) m = instrAt i m) := by
  intro m
  have hwrap : ∀ (j1 i1 : Intersection) (s u : Nat), stripped j1 = stripped j →
      stripped i1 = stripped i →
      (∀ m', instrAt j1 m' = instrAt i1 m' ∨
        (instrAt j1 m' = instrAt j m' ∧ instrAt i1 m' = instrAt i m')) →
      instrAt (assignRightTurns ctx v (assignLeftTurns ctx v j1 s) u) m =
          instrAt (assignRightTurns ctx v (assignLeftTurns ctx v i1 s) u) m ∨
        (instrAt (assignRightTurns ctx v (assignLeftTurns ctx v j1 s) u) m =
            instrAt j m ∧
         instrAt (assignRightTurns ctx v (assignLeftTurns ctx v i1 s) u) m =
            instrAt i m) := by
    intro j1 i1 s u hj1 hi1 hW1
    have hr1j : anglesInRange j1 := anglesInRange_of_stripped hj1 hrj
    have hr1i : anglesInRange i1 := anglesInRange_of_stripped hi1 hri
    have h1 : stripped j1 = stripped i1 := hj1.trans (h.trans hi1.symm)
    have hALs : stripped (assignLeftTurns ctx v j1 s) =
        stripped (assignLeftTurns ctx v i1 s) := by
      rw [stripped_assignLeftTurns ctx v j1 s hr1j,
        stripped_assignLeftTurns ctx v i1 s hr1i, h1]
    exact wstep (W_assignRightTurns ctx v hALs u)
      (wstep (W_assignLeftTurns ctx v h1 hr1j hr1i s) hW1) m
  unfold handleComplexTurn
  dsimp only
  rw [framesOf_congr h, findFork_congr ctx v h, findClosestToStraight_congr h,
    stripped_length h, frameOf_roadAt_congr h (ctx.findObviousTurn v (framesOf i)),
    angle_roadAt_congr h ((findClosestToStraight i).1),
    entry_roadAt_congr h ((findClosestToStraight i).1)]
  by_cases g1 : ctx.findObviousTurn v (framesOf i) ≠ 0
  · rw [if_pos g1, if_pos g1]
    exact hwrap _ _ _ _ (stripped_setInstrAt j _ _) (stripped_setInstrAt i _ _)
      (wset h _ _)
  · rw [if_neg g1, if_neg g1]
    rcases findFork ctx v i with _ | f
    · dsimp only
      by_cases g2 : (findClosestToStraight i).2 < ctx.fuzzy ∧
          (roadAt i (findClosestToStraight i).1).entry_allowed = false
      · rw [if_pos g2, if_pos g2]
        exact hwrap j i _ _ rfl rfl (wrefl j i)
      · rw [if_neg g2, if_neg g2]
        by_cases g3 : (roadAt i (findClosestToStraight i).1).angle > 180
        · rw [if_pos g3, if_pos g3]
          exact hwrap j i _ _ rfl rfl (wrefl j i)
        · rw [if_neg g3, if_neg g3]
          by_cases g4 : (roadAt i (findClosestToStraight i).1).angle < 180
          · rw [if_pos g4, if_pos g4]
            exact hwrap j i _ _ rfl rfl (wrefl j i)
          · rw [if_neg g4, if_neg g4]
            exact W_assignTrivialTurns ctx v h 1 i.length m
    · dsimp only
      rw [eid_roadAt_congr h f.left, eid_roadAt_congr h f.right]
      by_cases hs2 : f.size = 2
      · rw [if_pos hs2, if_pos hs2]
        by_cases hc : ctx.canBeSeenAsFork (ctx.roadClass (roadAt i f.left).eid)
            (ctx.roadClass (roadAt i f.right).eid) = true
        · rw [if_pos hc, if_pos hc]
          exact hwrap _ _ _ _ (stripped_applyAssignFork2 ctx v j f.left f.right)
            (stripped_applyAssignFork2 ctx v i f.left f.right)
            (W_applyAssignFork2 ctx v h f.left f.right)
        · rw [if_neg hc, if_neg hc]
          by_cases hp : (ctx.roadClass (roadAt i f.left).eid).priority >
              (ctx.roadClass (roadAt i f.right).eid).priority
          · rw [if_pos hp, if_pos hp, frameOf_roadAt_congr h f.right,
              frameOf_roadAt_congr h f.left]
            exact hwrap _ _ _ _
              ((stripped_setInstrAt _ f.left _).trans (stripped_setInstrAt j f.right _))
              ((stripped_setInstrAt _ f.left _).trans (stripped_setInstrAt i f.right _))
              (wstep (wset (((stripped_setInstrAt j f.right _).trans h).trans
                (stripped_setInstrAt i f.right _).symm) f.left _) (wset h f.right _))
          · rw [if_neg hp, if_neg hp, frameOf_roadAt_congr h f.left,
              frameOf_roadAt_congr h f.right]
            exact hwrap _ _ _ _
              ((stripped_setInstrAt _ f.right _).trans (stripped_setInstrAt j f.left _))
              ((stripped_setInstrAt _ f.right _).trans (stripped_setInstrAt i f.left _))
              (wstep (wset (((stripped_setInstrAt j f.left _).trans h).trans
                (stripped_setInstrAt i f.left _).symm) f.right _) (wset h f.left _))
      · rw [if_neg hs2, if_neg hs2]
        by_cases hs3 : f.size = 3
        · rw [if_pos hs3, if_pos hs3]
          exact hwrap _ _ _ _ (stripped_applyAssignFork3 ctx v j _ _ _)
            (stripped_applyAssignFork3 ctx v i _ _ _)
            (W_applyAssignFork3 ctx v h f.left (f.right + 1) f.right)
        · rw [if_neg hs3, if_neg hs3]
          exact hwrap j i _ _ rfl rfl (wrefl j i)

theorem W_classify (ctx : Ctx) (v : Nat) {j i : Intersection}
    (h : stripped j = stripped i) (hrj : anglesInRange j) (hri : anglesInRange i) :
    ∀ m,
    instrAt (classify ctx v j) m = instrAt (classify ctx v i) m ∨
      (instrAt (classify ctx v j) m = instrAt j m ∧
       instrAt (classify ctx v i) m = instrAt i m) := by
  intro m
  unfold classify handleOneWayTurn
  dsimp only
  rw [stripped_length h, entry_roadAt_congr h 0, frameOf_roadAt_congr h 0]
  by_cases hl1 : i.length = 1
  · rw [if_pos hl1, if_pos hl1]
    exact Or.inr ⟨rfl, rfl⟩
  · rw [if_neg hl1, if_neg hl1]
    have hmain : ∀ (j0 i0 : Intersection), stripped j0 = stripped j →
        stripped i0 = stripped i →
        (∀ m', instrAt j0 m' = instrAt i0 m' ∨
          (instrAt j0 m' = instrAt j m' ∧ instrAt i0 m' = instrAt i m')) →
        instrAt (if i.length = 2 then handleTwoWayTurn ctx v j0
            else if i.length = 3 then handleThreeWayTurn ctx v j0
            else handleComplexTurn ctx v j0) m =
            instrAt (if i.length = 2 then handleTwoWayTurn ctx v i0
              else if i.length = 3 then handleThreeWayTurn ctx v i0
              else handleComplexTurn ctx v i0) m ∨
          (instrAt (if i.length = 2 then handleTwoWayTurn ctx v j0
              else if i.length = 3 then handleThreeWayTurn ctx v j0
              else handleComplexTurn ctx v j0) m = instrAt j m ∧
           instrAt (if i.length = 2 then handleTwoWayTurn ctx v i0
              else if i.length = 3 then handleThreeWayTurn ctx v i0
              else handleComplexTurn ctx v i0) m = instrAt i m) := by
      intro j0 i0 hj0 hi0 hW0
      have h0 : stripped j0 = stripped i0 := hj0.trans (h.trans hi0.symm)
      by_cases hl2 : i.length = 2
      · rw [if_pos hl2, if_pos hl2]
        exact wstep (W_handleTwoWayTurn ctx v h0) hW0 m
      · rw [if_neg hl2, if_neg hl2]
        by_cases hl3 : i.length = 3
        · rw [if_pos hl3, if_pos hl3]
          exact wstep (W_handleThreeWayTurn ctx v h0) hW0 m
        · rw [if_neg hl3, if_neg hl3]
          exact wstep (W_handleComplexTurn ctx v h0
            (anglesInRange_of_stripped hj0 hrj)
            (anglesInRange_of_stripped hi0 hri)) hW0 m
    by_cases h0 : (roadAt i 0).entry_allowed = true
    · rw [if_pos h0, if_pos h0]
      exact hmain _ _ (stripped_setInstrAt j 0 _) (stripped_setInstrAt i 0 _)
        (wset h 0 _)
    · rw [if_neg h0, if_neg h0]
      exact hmain j i rfl rfl (wrefl j i)

/-- C6: classify is idempotent. Running the classifier on its own output
reproduces that output exactly: every branch decision reads only the frame
data (angles, eids, entry flags), which classify preserves, so the second
run takes the same branches and rewrites the same instructions with the
same values. Proved for inputs whose angles lie in the data-model range
`[0, 360)`. -/
theorem C6_idempotent (ctx : Ctx) (v : Nat) (i : Intersection)
    (hr : anglesInRange i) :
    classify ctx v (classify ctx v i) = classify ctx v i := by
  have hstr : stripped (classify ctx v i) = stripped i := stripped_classify ctx v i hr
  have hrc : anglesInRange (classify ctx v i) := anglesInRange_of_stripped hstr hr
  apply List.ext_getElem?
  intro m
  apply getElem?_eq_of_strip_instr (stripped_classify ctx v (classify ctx v i) hrc) m
  rcases W_classify ctx v hstr hrc hr m with heq | ⟨h1, _⟩
  · exact heq
  · exact h1

/-- C6 witness: idempotence evaluated on the concrete four-way
intersection `exI` with the standard context. -/
theorem C6_idempotent_witness :
    classify stdCtx 7 (classify stdCtx 7 exI) = classify stdCtx 7 exI :=
  C6_idempotent stdCtx 7 exI (by unfold anglesInRange; decide)

end Osrm
